import Mathlib

/-!
Verification development for the mantine-gantt-chart timeline windowing engine.

The TypeScript source (GanttChart component and its period configurations) is
shallowly embedded below.  JavaScript `Date` values are modelled by the
`DateTime` structure (civil calendar fields, millisecond resolution, no time
zone / DST — the model is a fixed-offset clock, which is faithful to the
arithmetic the component performs with date-fns `add` on a DST-free clock).
`date-fns` operations used by the source (`add` with minutes/hours/days/months,
`isSameDay`, `isSameMonth`, `isSameYear`, `isSameHour`, `isWeekend`) are
defined on this structure; `Date.prototype.getTime` is `toMs`, measured from
0000-01-01T00:00:00 in the proleptic Gregorian calendar.

JavaScript floating point arithmetic on pixel positions is modelled with `ℚ`.
-/

set_option maxHeartbeats 8000000
set_option maxRecDepth 1000000

/-- Model of a JavaScript `Date`: civil calendar fields.  `month` is 0-based
(January = 0) as in JS; `day` is 1-based. -/
structure DateTime where
  year : Int
  month : Nat
  day : Nat
  hour : Nat
  minute : Nat
  second : Nat
  ms : Nat
deriving DecidableEq, Repr, Inhabited

/-- Gregorian leap-year test. -/
def isLeap (y : Int) : Bool :=
  (y % 4 == 0 && y % 100 != 0) || y % 400 == 0

/-- Number of days in the (0-based) month `m` of a year with leap flag `leap`. -/
def daysInMonth (leap : Bool) (m : Nat) : Nat :=
  match m with
  | 0 => 31
  | 1 => if leap then 29 else 28
  | 2 => 31
  | 3 => 30
  | 4 => 31
  | 5 => 30
  | 6 => 31
  | 7 => 31
  | 8 => 30
  | 9 => 31
  | 10 => 30
  | _ => 31

/-- Days elapsed in the year before the (0-based) month `m` begins. -/
def daysBeforeMonth (leap : Bool) (m : Nat) : Nat :=
  let l : Nat := if leap then 1 else 0
  match m with
  | 0 => 0
  | 1 => 31
  | 2 => 59 + l
  | 3 => 90 + l
  | 4 => 120 + l
  | 5 => 151 + l
  | 6 => 181 + l
  | 7 => 212 + l
  | 8 => 243 + l
  | 9 => 273 + l
  | 10 => 304 + l
  | _ => 334 + l

/-- Count of multiples of `m` in the half-open interval `[0, y)` of integers,
extended to all of `ℤ` so that the step recurrence holds everywhere. -/
def mulCount (m y : Int) : Int := (y + (m - 1)) / m

/-- Leap years among years `0, 1, …, y-1` (signed count for negative `y`). -/
def leapsBefore (y : Int) : Int := mulCount 4 y - mulCount 100 y + mulCount 400 y

/-- Days from 0000-01-01 to the start of year `y` (proleptic Gregorian). -/
def daysBeforeYear (y : Int) : Int := 365 * y + leapsBefore y

/-- Serial day number of a civil date, with 0000-01-01 ↦ 0. -/
def dayNumber (d : DateTime) : Int :=
  daysBeforeYear d.year + daysBeforeMonth (isLeap d.year) d.month + d.day - 1

/-- JS `Date.prototype.getDay`: 0 = Sunday … 6 = Saturday.
0000-01-01 was a Saturday in the proleptic Gregorian calendar. -/
def weekday (d : DateTime) : Nat := ((dayNumber d + 6) % 7).toNat

/-- JS `Date.prototype.getTime`, milliseconds since 0000-01-01T00:00:00. -/
def toMs (d : DateTime) : Int :=
  dayNumber d * 86400000 + d.hour * 3600000 + d.minute * 60000 + d.second * 1000 + d.ms

/-- The calendar fields are in range. -/
def Valid (d : DateTime) : Prop :=
  d.month < 12 ∧ 1 ≤ d.day ∧ d.day ≤ daysInMonth (isLeap d.year) d.month ∧
    d.hour < 24 ∧ d.minute < 60 ∧ d.second < 60 ∧ d.ms < 1000

instance (d : DateTime) : Decidable (Valid d) := by
  unfold Valid; infer_instance

/-- date-fns `isWeekend`. -/
def isWeekend (d : DateTime) : Bool := weekday d == 0 || weekday d == 6

/-- date-fns `isSameDay` (same civil year, month and day). -/
def sameDay (a b : DateTime) : Bool :=
  a.year == b.year && a.month == b.month && a.day == b.day

/-- Successor day: the calendar-rollover step underlying `add(date, {days: 1})`. -/
def succDay (d : DateTime) : DateTime :=
  if d.day < daysInMonth (isLeap d.year) d.month then
    { d with day := d.day + 1 }
  else if d.month < 11 then
    { d with month := d.month + 1, day := 1 }
  else
    { d with year := d.year + 1, month := 0, day := 1 }

/-- Predecessor day, underlying `add(date, {days: -1})`. -/
def predDay (d : DateTime) : DateTime :=
  if 1 < d.day then
    { d with day := d.day - 1 }
  else if 0 < d.month then
    { d with month := d.month - 1, day := daysInMonth (isLeap d.year) (d.month - 1) }
  else
    { d with year := d.year - 1, month := 11, day := 31 }

/-- date-fns `addMonths 1`: advance one calendar month, clamping the day of
month to the target month's length. -/
def addMonthsOne (d : DateTime) : DateTime :=
  let y := if d.month = 11 then d.year + 1 else d.year
  let m := if d.month = 11 then 0 else d.month + 1
  { d with year := y, month := m, day := min d.day (daysInMonth (isLeap y) m) }

/-- date-fns `addMonths (-1)`: one calendar month back, clamping the day. -/
def subMonthsOne (d : DateTime) : DateTime :=
  let y := if d.month = 0 then d.year - 1 else d.year
  let m := if d.month = 0 then 11 else d.month - 1
  { d with year := y, month := m, day := min d.day (daysInMonth (isLeap y) m) }

/-- `add(date, {days: z})` for a signed day count. -/
def addDaysZ (z : Int) (d : DateTime) : DateTime :=
  if 0 ≤ z then succDay^[z.toNat] d else predDay^[(-z).toNat] d

/-- `add(date, {minutes: z})` (also used for `{hours: h}` as `z = 60*h`):
pure clock arithmetic, seconds and milliseconds untouched. -/
def addMinutesZ (z : Int) (d : DateTime) : DateTime :=
  let t : Int := (d.hour : Int) * 60 + (d.minute : Int) + z
  let q := t / 1440
  let r := t % 1440
  { addDaysZ q d with hour := (r / 60).toNat, minute := (r % 60).toNat }

-- ### Scale registry (GanttChartPeriodConfig.ts)

/-- The 8 period scales. -/
inductive PeriodScale
  | hours
  | day
  | week
  | biWeek
  | month
  | quarter
  | year
  | fiveYears
deriving DecidableEq, Repr

/-- Mark classification of a period cell. -/
inductive PeriodMarkType
  | major
  | minor
  | weekend
  | none
deriving DecidableEq, Repr

/-- `PERIOD_CONFIGS[scale].width` (rem units). -/
def widthRem : PeriodScale → Rat
  | .hours => 6
  | .day => 3
  | .week => 7
  | .biWeek => 7 / 2
  | .month => 7 / 4
  | .quarter => 9 / 2
  | .year => 2
  | .fiveYears => 2

/-- One forward period step: date-fns `add(date, increment)` for the scale's
increment (`{minutes: 15}`, `{hours: 1}`, `{days: 1}`, `{days: 7}`, `{months: 1}`). -/
def incP : PeriodScale → DateTime → DateTime
  | .hours => addMinutesZ 15
  | .day => addMinutesZ 60
  | .week => succDay
  | .biWeek => succDay
  | .month => succDay
  | .quarter => succDay^[7]
  | .year => succDay^[7]
  | .fiveYears => addMonthsOne

/-- One backward period step: the source negates the increment's single entry
(`add(tempDate, {[key]: -value})`). -/
def decP : PeriodScale → DateTime → DateTime
  | .hours => addMinutesZ (-15)
  | .day => addMinutesZ (-60)
  | .week => predDay
  | .biWeek => predDay
  | .month => predDay
  | .quarter => predDay^[7]
  | .year => predDay^[7]
  | .fiveYears => subMonthsOne

/-- `PERIOD_CONFIGS[scale].alignDate`. -/
def alignDate : PeriodScale → DateTime → DateTime
  | .hours, d => { d with minute := d.minute / 15 * 15, second := 0, ms := 0 }
  | .day, d => { d with minute := 0, second := 0, ms := 0 }
  | .week, d => { d with hour := 0, minute := 0, second := 0, ms := 0 }
  | .biWeek, d => { d with hour := 0, minute := 0, second := 0, ms := 0 }
  | .month, d => { d with hour := 0, minute := 0, second := 0, ms := 0 }
  | .quarter, d => { predDay^[weekday d] d with hour := 0, minute := 0, second := 0, ms := 0 }
  | .year, d => { predDay^[weekday d] d with hour := 0, minute := 0, second := 0, ms := 0 }
  | .fiveYears, d => { d with day := 1, hour := 0, minute := 0, second := 0, ms := 0 }

/-- `PERIOD_CONFIGS[scale].isPeriodExactMatch`.  date-fns `isSameYear`,
`isSameMonth`, `isSameDay` and `isSameHour` compare the corresponding calendar
field prefixes. -/
def isPeriodExactMatch : PeriodScale → DateTime → DateTime → Bool
  | .hours, p, t => sameDay p t && p.hour == t.hour && (p.minute / 15 == t.minute / 15)
  | .day, p, t => sameDay p t && p.hour == t.hour
  | .week, p, t => sameDay p t
  | .biWeek, p, t => sameDay p t
  | .month, p, t => sameDay p t
  | .quarter, p, t => p.year == t.year && p.month == t.month && (p.day / 7 == t.day / 7)
  | .year, p, t => p.year == t.year && p.month == t.month && (p.day / 7 == t.day / 7)
  | .fiveYears, p, t => p.month == t.month && p.year == t.year

/-- `PERIOD_CONFIGS[scale].isPeriodOnSameDay`. -/
def isPeriodOnSameDay : PeriodScale → DateTime → DateTime → Bool
  | .hours, p, t => sameDay p t
  | .day, p, t => sameDay p t
  | .week, p, t => sameDay p t
  | .biWeek, p, t => sameDay p t
  | .month, p, t => sameDay p t
  | .quarter, p, t => p.year == t.year && p.month == t.month
  | .year, p, t => p.year == t.year && p.month == t.month
  | .fiveYears, p, t => p.year == t.year

/-- `PERIOD_CONFIGS[scale].getMarkType`. -/
def getMarkType : PeriodScale → DateTime → PeriodMarkType
  | .hours, d => if d.minute = 0 then .major else .minor
  | .day, _ => .major
  | .week, d => if isWeekend d then .weekend else .major
  | .biWeek, d => if isWeekend d then .weekend else .major
  | .month, d => if isWeekend d then .weekend else .major
  | .quarter, _ => .major
  | .year, _ => .major
  | .fiveYears, d => if d.month = 0 then .major else .minor

/-- Windows of the `fiveYears` scale consist of first-of-month dates; this is
the per-scale strengthening of `Valid` preserved by `incP`/`decP`/`alignDate`. -/
def ScaleValid (s : PeriodScale) (d : DateTime) : Prop :=
  Valid d ∧ (s = PeriodScale.fiveYears → d.day = 1)

instance (s : PeriodScale) (d : DateTime) : Decidable (ScaleValid s d) := by
  unfold ScaleValid; infer_instance

-- ### Window manager (GanttChart component, unnamed variant part_009)

/-- The backward half-window: the loop `tempDate := add(tempDate, -increment);
periods.unshift(tempDate)` run `k` times produces `[f^k x, …, f¹ x]`. -/
def backChain (f : DateTime → DateTime) (x : DateTime) : Nat → List DateTime
  | 0 => []
  | k + 1 => f^[k + 1] x :: backChain f x k

/-- The forward half-window: `tempDate := add(tempDate, increment);
periods.push(tempDate)` run `k` times produces `[f¹ x, …, f^k x]`. -/
def fwdChain (f : DateTime → DateTime) (x : DateTime) (k : Nat) : List DateTime :=
  (List.range k).map (fun i => f^[i + 1] x)

/-- The window-building loop shared by the initialization effect, `scrollToToday`
regeneration and `scrollToTask`: `halfCount = 100` periods before the (already
aligned) center, the center, and `halfCount - 1 = 99` periods after it. -/
def genAround (s : PeriodScale) (c : DateTime) : List DateTime :=
  backChain (decP s) c 100 ++ c :: fwdChain (incP s) c 99

/-- The initialization effect's window construction: align the center date,
then build `TOTAL_PERIODS = 200` periods around it. -/
def initWindow (s : PeriodScale) (c : DateTime) : List DateTime :=
  genAround s (alignDate s c)

/-- `shiftWindowLeft`: drop `PERIODS_TO_SHIFT = 100` periods from the right end
(`splice(length - 100, 100)`), then prepend 100 periods generated backwards
from the remaining head (`periodsArray[0]`).  (For windows of at most 100
periods the JS code would read an undefined head; such windows are never
produced — all reachable windows have 200 periods.) -/
def shiftWindowLeft (s : PeriodScale) (w : List DateTime) : List DateTime :=
  if w.isEmpty then w
  else
    let arr := w.take (w.length - 100)
    backChain (decP s) arr.headI 100 ++ arr

/-- `shiftWindowRight`: drop 100 periods from the left end (`splice(0, 100)`),
then append 100 periods generated forwards from the remaining last element. -/
def shiftWindowRight (s : PeriodScale) (w : List DateTime) : List DateTime :=
  if w.isEmpty then w
  else
    let arr := w.drop 100
    arr ++ fwdChain (incP s) (arr.getLastD default) 100

/-- Windows reachable by the component: produced by initialization (any valid
center date) and closed under the two shift operations. -/
inductive Reachable (s : PeriodScale) : List DateTime → Prop where
  | init (c : DateTime) (hc : Valid c) : Reachable s (initWindow s c)
  | left {w : List DateTime} (hw : Reachable s w) : Reachable s (shiftWindowLeft s w)
  | right {w : List DateTime} (hw : Reachable s w) : Reachable s (shiftWindowRight s w)

/-- Invariant of all reachable windows: 200 periods, per-scale validity of
every entry, and contiguity (each entry is one increment after the previous). -/
def WF (s : PeriodScale) (w : List DateTime) : Prop :=
  w.length = 200 ∧ (∀ d ∈ w, ScaleValid s d) ∧
    List.Chain' (fun a b => b = incP s a) w

-- ### Coordinate mapper and task positioner (getTaskStyle, getTodayPosition)

/-- Style of a rendered task bar: `left`/`width` in rem units (`display: none`
is modelled as `Option.none`). -/
structure TaskStyle where
  left : Rat
  width : Rat
deriving DecidableEq, Repr

/-- The linear bracket scan `for i in 0..length-2: p[i] <= t < p[i+1]`. -/
def bracketScan (t : Int) : List DateTime → Option Nat
  | p :: q :: rest =>
    if toMs p ≤ t ∧ t < toMs q then some 0
    else (bracketScan t (q :: rest)).map (· + 1)
  | _ => none

/-- First index minimizing the absolute time distance to `t` (the `minDiff`
scan keeps the first strict minimum, as the JS loop does). -/
def closestIdx (w : List DateTime) (t : Int) : Nat :=
  match w with
  | [] => 0
  | p :: _ =>
    (w.enum.foldl
      (fun best ip => if |toMs ip.2 - t| < best.2 then (ip.1, |toMs ip.2 - t|) else best)
      (0, |toMs p - t|)).1

/-- Bracketing index pair for a time: the direct scan, or the closest-period
fallback (`Math.max(0, closest - 1)` / `Math.min(length - 1, closest + 1)`). -/
def bracketOrClosest (w : List DateTime) (t : Int) : Nat × Nat :=
  match bracketScan t w with
  | some i => (i, i + 1)
  | none =>
    let ci := closestIdx w t
    if t < toMs (w.getD ci default) then (ci - 1, ci)
    else (ci, min (w.length - 1) (ci + 1))

/-- `getTaskStyle` of the richest component variant: hide when the window is
empty or the task interval lies wholly outside it, otherwise place both ends
independently by proportional interpolation between their bracketing periods.
No clamping is applied.  (JS division by zero at degenerate bracket pairs
yields ±Infinity/NaN; in this model `x / 0 = 0` — the claims proved below stay
away from those degenerate inputs.  The source's final
`startBeforeIndex === -1 && endBeforeIndex === -1` guard is dead code because
the closest-period fallback always assigns both indices, and is omitted.) -/
def getTaskStyle (s : PeriodScale) (w : List DateTime) (tstart tend : DateTime) :
    Option TaskStyle :=
  match w with
  | [] => none
  | p0 :: _ =>
    let plast := w.getLastD p0
    if toMs tend < toMs p0 ∨ toMs plast < toMs tstart then none
    else
      let sp := bracketOrClosest w (toMs tstart)
      let ep := bracketOrClosest w (toMs tend)
      let sbt := toMs (w.getD sp.1 default)
      let sat := toMs (w.getD sp.2 default)
      let ebt := toMs (w.getD ep.1 default)
      let eat := toMs (w.getD ep.2 default)
      let startProp : Rat := ((toMs tstart - sbt : Int) : Rat) / ((sat - sbt : Int) : Rat)
      let endProp : Rat := ((toMs tend - ebt : Int) : Rat) / ((eat - ebt : Int) : Rat)
      let startPos := ((sp.1 : Rat) + startProp) * widthRem s
      let endPos := ((ep.1 : Rat) + endProp) * widthRem s
      some ⟨startPos, endPos - startPos⟩

/-- Proportional pixel/rem position between periods `i` and `i+1`
(`(beforeIndex + proportion) * unit`, with proportion 0 when the period pair
is degenerate — the `totalTimeDiff > 0` guard). -/
def posAt (w : List DateTime) (i : Nat) (t : Int) (unit : Rat) : Rat :=
  let b := toMs (w.getD i default)
  let a := toMs (w.getD (i + 1) default)
  let prop : Rat := if 0 < a - b then ((t - b : Int) : Rat) / ((a - b : Int) : Rat) else 0
  ((i : Rat) + prop) * unit

/-- JS `Array.prototype.indexOf` (value identity; reachable windows have
pairwise distinct entries, making this faithful to reference identity). -/
def idxOfI (w : List DateTime) (x : DateTime) : Int :=
  match w.findIdx? (fun p => p == x) with
  | some j => (j : Int)
  | none => -1

/-- The shared "find today/target in the window" lookup: exact match against
the aligned target first, then the closest same-bucket period. -/
def findPeriodIndex (s : PeriodScale) (w : List DateTime) (target : DateTime) : Option Nat :=
  match w.findIdx? (fun p => isPeriodExactMatch s p (alignDate s target)) with
  | some i => some i
  | none =>
    let relevant := w.filter (fun p => isPeriodOnSameDay s p target)
    match relevant with
    | [] => none
    | q :: rest =>
      match w.findIdx? (fun p => p == (q :: rest).foldl
          (fun best r => if |toMs r - toMs target| < |toMs best - toMs target| then r else best)
          q) with
      | some i => some i
      | none => none

/-- `getTodayPosition`: the today-marker offset in rem, `none` when absent. -/
def getTodayPosition (s : PeriodScale) (w : List DateTime) (now : DateTime) : Option Rat :=
  if w.isEmpty then none
  else
    match bracketScan (toMs now) w with
    | some i => some (posAt w i (toMs now) (widthRem s))
    | none =>
      match findPeriodIndex s w now with
      | none => none
      | some ti =>
        if toMs now < toMs (w.getD ti default) then
          if 0 < ti then some (posAt w (ti - 1) (toMs now) (widthRem s))
          else some 0
        else if ti < w.length - 1 then some (posAt w ti (toMs now) (widthRem s))
        else some (((w.length - 1 : Nat) : Rat) * widthRem s)

-- ### Scroll coordinator (handleScroll) and jump actions

/-- The mutable pieces `handleScroll` interacts with in one tick: the window,
the scroll offset, and the visible range. -/
structure ScrollTick where
  periods : List DateTime
  scrollLeft : Rat
  visStart : Int
  visEnd : Int
deriving Repr

/-- One `handleScroll` tick (after initial render, container present),
including the deferred scroll compensation and visible-range adjustment the
shift operations schedule: below 10% of the total width shift left and
compensate by `+100 * periodWidthPx`; above the right threshold shift right
and compensate by `-100 * periodWidthPx`; otherwise recompute the visible
range from the scroll offset. -/
def handleScroll (s : PeriodScale) (st : ScrollTick) (containerWidth : Rat) : ScrollTick :=
  let pw := widthRem s * 16
  let total := (st.periods.length : Rat) * pw
  if st.scrollLeft < total * (1 / 10) then
    ⟨shiftWindowLeft s st.periods, st.scrollLeft + 100 * pw,
      st.visStart + 100, st.visEnd + 100⟩
  else if total * (9 / 10) - containerWidth < st.scrollLeft then
    ⟨shiftWindowRight s st.periods, st.scrollLeft - 100 * pw,
      st.visStart - 100, st.visEnd - 100⟩
  else
    ⟨st.periods, st.scrollLeft,
      ⌊st.scrollLeft / pw⌋, ⌊st.scrollLeft / pw⌋ + ⌈containerWidth / pw⌉⟩

/-- Result of a jump action (`scrollToToday`): whether the window was rebuilt,
the window afterwards, the visible range, and the scroll write issued. -/
structure JumpRun where
  regenerated : Bool
  periods : List DateTime
  visStart : Int
  visEnd : Int
  scrollLeft : Rat
deriving Repr

/-- The regeneration branch shared by `scrollToToday`: rebuild 200 periods
around the aligned target, reset the visible range around the center, and
scroll so the target's proportional position is centered. -/
def scrollToTodayRegen (s : PeriodScale) (now : DateTime) (containerWidth : Rat) : JumpRun :=
  let pw := widthRem s * 16
  let np := genAround s (alignDate s now)
  let vc : Int := ⌈containerWidth / pw⌉
  let exactPos := if 100 + 1 < np.length then posAt np 100 (toMs now) pw else (100 : Rat) * pw
  ⟨true, np, max 0 (100 - vc / 2), 100 + ⌈(vc : Rat) / 2⌉,
    max 0 (exactPos - containerWidth / 2)⟩

/-- `needsRegeneration` for a found today index: near an edge (first/last
quarter of `TOTAL_PERIODS = 200`) unless another same-bucket period lies
further from that edge. -/
def todayNeedsRegen (s : PeriodScale) (w : List DateTime) (now : DateTime) (ti : Nat) : Bool :=
  if ti < 50 ∨ 150 < ti then
    let relevant := w.filter (fun p => isPeriodOnSameDay s p now)
    let hasEarlier : Bool :=
      decide (0 < ti) && relevant.any (fun p => decide (idxOfI w p < (ti : Int)))
    let hasLater : Bool :=
      decide (ti < w.length - 1) && relevant.any (fun p => decide ((ti : Int) < idxOfI w p))
    ! ((decide (ti < 50) && hasEarlier) || (decide (150 < ti) && hasLater))
  else false

/-- `scrollToToday`: look today up in the current window; if found and no
regeneration is needed, keep the window and visible range and just issue a
centering scroll write; otherwise rebuild around aligned today. -/
def scrollToToday (s : PeriodScale) (w : List DateTime) (now : DateTime)
    (containerWidth : Rat) (visStart visEnd : Int) : JumpRun :=
  let pw := widthRem s * 16
  match findPeriodIndex s w now with
  | none => scrollToTodayRegen s now containerWidth
  | some ti =>
    if todayNeedsRegen s w now ti then scrollToTodayRegen s now containerWidth
    else
      let exactPos :=
        if ti + 1 < w.length then posAt w ti (toMs now) pw else (ti : Rat) * pw
      ⟨false, w, visStart, visEnd, max 0 (exactPos - containerWidth / 2)⟩

/-- Result of `scrollToTask`: the rebuilt window, visible range and scroll write. -/
structure TaskRun where
  periods : List DateTime
  visStart : Int
  visEnd : Int
  scrollLeft : Rat
deriving Repr

/-- `scrollToTask`: unconditionally regenerate the window around the task's
aligned start date, then scroll the task to one period from the left edge. -/
def scrollToTask (s : PeriodScale) (taskStart : DateTime) (containerWidth : Rat)
    (oldScroll : Rat) : TaskRun :=
  let pw := widthRem s * 16
  let np := genAround s (alignDate s taskStart)
  let vc : Int := ⌈containerWidth / pw⌉
  let scroll :=
    match np.findIdx? (fun p => isPeriodExactMatch s p taskStart) with
    | some i => max 0 (((i : Rat) - 1) * pw)
    | none =>
      match np.findIdx? (fun p => decide (toMs taskStart < toMs p)) with
      | some j => max 0 (((j : Rat) - 1) * pw)
      | none => oldScroll
  ⟨np, max 0 (100 - vc / 2), 100 + ⌈(vc : Rat) / 2⌉, scroll⟩

-- ### Initialization effect (center date and first window)

/-- Decode a timestamp back to civil fields (Howard Hinnant's algorithm,
shifted to this model's year-0 epoch).  Used only by the JS
`new Date(centerTime)` construction in the center-date computation. -/
def msToDateTime (t : Int) : DateTime :=
  let dn := t / 86400000
  let rem := (t % 86400000).toNat
  let z := dn - 60
  let era := z / 146097
  let doe := (z - era * 146097).toNat
  let yoe := (doe - doe / 1460 + doe / 36524 - doe / 146096) / 365
  let doy := doe - (365 * yoe + yoe / 4 - yoe / 100)
  let mp := (5 * doy + 2) / 153
  let dd := doy - (153 * mp + 2) / 5 + 1
  let m := if mp < 10 then mp + 2 else mp - 10
  let y := (yoe : Int) + era * 400 + (if m ≤ 1 then 1 else 0)
  ⟨y, m, dd, rem / 3600000, rem % 3600000 / 60000, rem % 60000 / 1000, rem % 1000⟩

/-- A task's date interval.  The source field `end` is a reserved word in
Lean and is called `stop` here. -/
structure TaskItem where
  start : DateTime
  stop : DateTime
deriving DecidableEq, Repr

/-- The component's `centerDate`: midpoint of the tasks' overall time range
(`min + (max - min) / 2`, JS `Date` truncation), or "now" when there is no
data. -/
def centerDateOf (tasks : List TaskItem) (now : DateTime) : DateTime :=
  match tasks with
  | [] => now
  | t0 :: _ =>
    let times := (tasks.flatMap (fun t => [t.start, t.stop])).map toMs
    let first := toMs t0.start
    let mn := times.foldl min first
    let mx := times.foldl max first
    msToDateTime (mn + (mx - mn) / 2)

/-- Result of the initialization effect. -/
structure InitRun where
  periods : List DateTime
  virtualOffset : Int
  visStart : Int
  visEnd : Int
  scrollLeft : Rat
deriving Repr

/-- The initialization effect: build the 200-period window around the aligned
center date, reset the virtual offset to 0, reset the visible range to a
centered sub-window (`centerIndex ± 25`), and request a scroll to
`centerIndex * periodWidthPx - containerWidth / 2`. -/
def initEffect (s : PeriodScale) (tasks : List TaskItem) (now : DateTime)
    (containerWidth : Rat) : InitRun :=
  let c := centerDateOf tasks now
  let p := initWindow s c
  let centerIndex : Int := (p.length : Int) / 2
  ⟨p, 0, max 0 (centerIndex - 25), centerIndex + 25,
    (centerIndex : Rat) * (widthRem s * 16) - containerWidth / 2⟩

/-- The proportional position (in rem) that `getTaskStyle` assigns to one task
endpoint: interpolation between the endpoint's bracketing periods. -/
def taskStylePos (s : PeriodScale) (w : List DateTime) (t : Int) : Rat :=
  let bp := bracketOrClosest w t
  let bt := toMs (w.getD bp.1 default)
  let at' := toMs (w.getD bp.2 default)
  ((bp.1 : Rat) + ((t - bt : Int) : Rat) / ((at' - bt : Int) : Rat)) * widthRem s

-- ## Theorems

-- ### Arithmetic lemmas for the calendar core

theorem mulCount_four_step (y : Int) :
    mulCount 4 (y + 1) = mulCount 4 y + (if y % 4 = 0 then 1 else 0) := by
  unfold mulCount; split <;> omega

theorem mulCount_hundred_step (y : Int) :
    mulCount 100 (y + 1) = mulCount 100 y + (if y % 100 = 0 then 1 else 0) := by
  unfold mulCount; split <;> omega

theorem mulCount_fourHundred_step (y : Int) :
    mulCount 400 (y + 1) = mulCount 400 y + (if y % 400 = 0 then 1 else 0) := by
  unfold mulCount; split <;> omega

theorem leapsBefore_step (y : Int) :
    leapsBefore (y + 1) = leapsBefore y + (if isLeap y then 1 else 0) := by
  unfold leapsBefore isLeap
  rw [mulCount_four_step, mulCount_hundred_step, mulCount_fourHundred_step]
  simp only [Bool.or_eq_true, Bool.and_eq_true, beq_iff_eq, bne_iff_ne, ne_eq]
  split_ifs <;> omega

theorem daysBeforeYear_step (y : Int) :
    daysBeforeYear (y + 1) = daysBeforeYear y + 365 + (if isLeap y then 1 else 0) := by
  unfold daysBeforeYear
  rw [leapsBefore_step]; ring

theorem daysInMonth_pos (leap : Bool) (m : Nat) : 1 ≤ daysInMonth leap m := by
  unfold daysInMonth
  split <;> first | omega | (split <;> omega)

theorem daysBeforeMonth_step (leap : Bool) (m : Nat) (hm : m < 11) :
    daysBeforeMonth leap (m + 1) = daysBeforeMonth leap m + daysInMonth leap m := by
  interval_cases m <;> cases leap <;> rfl

theorem daysBeforeMonth_eleven (leap : Bool) :
    daysBeforeMonth leap 11 = 334 + (if leap then 1 else 0) := by
  cases leap <;> rfl

theorem daysInMonth_le (leap : Bool) (m : Nat) : daysInMonth leap m ≤ 31 := by
  unfold daysInMonth
  split <;> first | omega | (split <;> omega)

theorem dayNumber_succDay (d : DateTime) (h : Valid d) :
    dayNumber (succDay d) = dayNumber d + 1 := by
  obtain ⟨hm, hd1, hd2, -⟩ := h
  unfold succDay
  split_ifs with h1 h2
  · simp only [dayNumber]
    omega
  · have hstep := daysBeforeMonth_step (isLeap d.year) d.month h2
    simp only [dayNumber]
    omega
  · have hmonth : d.month = 11 := by omega
    have hday : d.day = 31 := by
      have h31 : daysInMonth (isLeap d.year) 11 = 31 := rfl
      rw [hmonth] at hd2 h1
      omega
    have hy := daysBeforeYear_step d.year
    have he := daysBeforeMonth_eleven (isLeap d.year)
    have h0 : daysBeforeMonth (isLeap (d.year + 1)) 0 = 0 := rfl
    simp only [dayNumber, hmonth, hday, h0, hy, he]
    split_ifs <;> omega

theorem dayNumber_predDay (d : DateTime) (h : Valid d) :
    dayNumber (predDay d) = dayNumber d - 1 := by
  obtain ⟨hm, hd1, hd2, -⟩ := h
  unfold predDay
  split_ifs with h1 h2
  · simp only [dayNumber]
    omega
  · have hstep := daysBeforeMonth_step (isLeap d.year) (d.month - 1) (by omega)
    have hm1 : d.month - 1 + 1 = d.month := by omega
    rw [hm1] at hstep
    simp only [dayNumber]
    omega
  · have hmonth : d.month = 0 := by omega
    have hday : d.day = 1 := by omega
    have hstep := daysBeforeYear_step (d.year - 1)
    have hy : d.year - 1 + 1 = d.year := by omega
    rw [hy] at hstep
    have he := daysBeforeMonth_eleven (isLeap (d.year - 1))
    have h0 : daysBeforeMonth (isLeap d.year) 0 = 0 := rfl
    simp only [dayNumber, hmonth, hday, h0, he]
    split_ifs at hstep ⊢ <;> omega

theorem succDay_valid (d : DateTime) (h : Valid d) : Valid (succDay d) := by
  have hp1 := daysInMonth_pos (isLeap d.year) (d.month + 1)
  have hp2 := daysInMonth_pos (isLeap (d.year + 1)) 0
  obtain ⟨hm, hd1, hd2, hh, hmin, hs, hms⟩ := h
  unfold succDay
  split_ifs with h1 h2 <;>
    refine ⟨?_, ?_, ?_, ?_, ?_, ?_, ?_⟩ <;> simp only <;> omega

theorem predDay_valid (d : DateTime) (h : Valid d) : Valid (predDay d) := by
  have hp1 := daysInMonth_pos (isLeap d.year) (d.month - 1)
  have hp2 : daysInMonth (isLeap (d.year - 1)) 11 = 31 := rfl
  obtain ⟨hm, hd1, hd2, hh, hmin, hs, hms⟩ := h
  unfold predDay
  split_ifs with h1 h2 <;>
    refine ⟨?_, ?_, ?_, ?_, ?_, ?_, ?_⟩ <;> simp only <;> omega

theorem predDay_succDay (d : DateTime) (h : Valid d) : predDay (succDay d) = d := by
  obtain ⟨hm, hd1, hd2, -⟩ := h
  obtain ⟨y, mo, da, hh, mi, s, ms⟩ := d
  simp only at hm hd1 hd2
  have hple := daysInMonth_le (isLeap y) mo
  unfold succDay predDay
  split_ifs with h1 h2 <;> simp_all <;> try omega
  all_goals
    have hmo : mo = 11 := by omega
  all_goals
    rw [hmo] at hd2 h1
  all_goals
    have h11 : daysInMonth (isLeap y) 11 = 31 := rfl
  all_goals
    omega

theorem succDay_predDay (d : DateTime) (h : Valid d) : succDay (predDay d) = d := by
  obtain ⟨hm, hd1, hd2, -⟩ := h
  obtain ⟨y, mo, da, hh, mi, s, ms⟩ := d
  simp only at hm hd1 hd2
  have hp0 := daysInMonth_pos (isLeap y) mo
  have hp1 := daysInMonth_pos (isLeap y) (mo - 1)
  have hple := daysInMonth_le (isLeap y) (mo - 1)
  have hp2 : daysInMonth (isLeap (y - 1)) 11 = 31 := rfl
  unfold predDay succDay
  split_ifs with h1 h2 <;> simp_all <;> omega

theorem succDay_iter_valid (n : Nat) (d : DateTime) (h : Valid d) :
    Valid (succDay^[n] d) := by
  induction n generalizing d with
  | zero => simpa using h
  | succ n ih =>
    rw [Function.iterate_succ_apply]
    exact ih _ (succDay_valid d h)

theorem predDay_iter_valid (n : Nat) (d : DateTime) (h : Valid d) :
    Valid (predDay^[n] d) := by
  induction n generalizing d with
  | zero => simpa using h
  | succ n ih =>
    rw [Function.iterate_succ_apply]
    exact ih _ (predDay_valid d h)

theorem predDay_iter_succDay_iter (n : Nat) (d : DateTime) (h : Valid d) :
    predDay^[n] (succDay^[n] d) = d := by
  induction n generalizing d with
  | zero => rfl
  | succ n ih =>
    rw [Function.iterate_succ_apply' (f := succDay), Function.iterate_succ_apply (f := predDay)]
    rw [predDay_succDay _ (succDay_iter_valid n d h)]
    exact ih d h

theorem succDay_iter_predDay_iter (n : Nat) (d : DateTime) (h : Valid d) :
    succDay^[n] (predDay^[n] d) = d := by
  induction n generalizing d with
  | zero => rfl
  | succ n ih =>
    rw [Function.iterate_succ_apply' (f := predDay), Function.iterate_succ_apply (f := succDay)]
    rw [succDay_predDay _ (predDay_iter_valid n d h)]
    exact ih d h

theorem dayNumber_succDay_iter (n : Nat) (d : DateTime) (h : Valid d) :
    dayNumber (succDay^[n] d) = dayNumber d + n := by
  induction n generalizing d with
  | zero => simp
  | succ n ih =>
    rw [Function.iterate_succ_apply]
    rw [ih _ (succDay_valid d h), dayNumber_succDay d h]
    push_cast
    ring

theorem dayNumber_predDay_iter (n : Nat) (d : DateTime) (h : Valid d) :
    dayNumber (predDay^[n] d) = dayNumber d - n := by
  induction n generalizing d with
  | zero => simp
  | succ n ih =>
    rw [Function.iterate_succ_apply]
    rw [ih _ (predDay_valid d h), dayNumber_predDay d h]
    push_cast
    ring

theorem succDay_time (d : DateTime) :
    (succDay d).hour = d.hour ∧ (succDay d).minute = d.minute ∧
      (succDay d).second = d.second ∧ (succDay d).ms = d.ms := by
  unfold succDay
  split_ifs <;> exact ⟨rfl, rfl, rfl, rfl⟩

theorem predDay_time (d : DateTime) :
    (predDay d).hour = d.hour ∧ (predDay d).minute = d.minute ∧
      (predDay d).second = d.second ∧ (predDay d).ms = d.ms := by
  unfold predDay
  split_ifs <;> exact ⟨rfl, rfl, rfl, rfl⟩

theorem succDay_iter_time (n : Nat) (d : DateTime) :
    (succDay^[n] d).hour = d.hour ∧ (succDay^[n] d).minute = d.minute ∧
      (succDay^[n] d).second = d.second ∧ (succDay^[n] d).ms = d.ms := by
  induction n generalizing d with
  | zero => exact ⟨rfl, rfl, rfl, rfl⟩
  | succ n ih =>
    rw [Function.iterate_succ_apply]
    obtain ⟨a, b, c, e⟩ := ih (succDay d)
    obtain ⟨a', b', c', e'⟩ := succDay_time d
    exact ⟨a.trans a', b.trans b', c.trans c', e.trans e'⟩

theorem predDay_iter_time (n : Nat) (d : DateTime) :
    (predDay^[n] d).hour = d.hour ∧ (predDay^[n] d).minute = d.minute ∧
      (predDay^[n] d).second = d.second ∧ (predDay^[n] d).ms = d.ms := by
  induction n generalizing d with
  | zero => exact ⟨rfl, rfl, rfl, rfl⟩
  | succ n ih =>
    rw [Function.iterate_succ_apply]
    obtain ⟨a, b, c, e⟩ := ih (predDay d)
    obtain ⟨a', b', c', e'⟩ := predDay_time d
    exact ⟨a.trans a', b.trans b', c.trans c', e.trans e'⟩

theorem addDaysZ_valid (z : Int) (d : DateTime) (h : Valid d) : Valid (addDaysZ z d) := by
  unfold addDaysZ
  split_ifs
  · exact succDay_iter_valid _ d h
  · exact predDay_iter_valid _ d h

theorem dayNumber_addDaysZ (z : Int) (d : DateTime) (h : Valid d) :
    dayNumber (addDaysZ z d) = dayNumber d + z := by
  unfold addDaysZ
  split_ifs with h0
  · rw [dayNumber_succDay_iter _ _ h]; omega
  · rw [dayNumber_predDay_iter _ _ h]; omega

theorem addDaysZ_time (z : Int) (d : DateTime) :
    (addDaysZ z d).hour = d.hour ∧ (addDaysZ z d).minute = d.minute ∧
      (addDaysZ z d).second = d.second ∧ (addDaysZ z d).ms = d.ms := by
  unfold addDaysZ
  split_ifs
  · exact succDay_iter_time _ d
  · exact predDay_iter_time _ d

theorem addDaysZ_neg_addDaysZ (z : Int) (d : DateTime) (h : Valid d) :
    addDaysZ (-z) (addDaysZ z d) = d := by
  rcases lt_trichotomy z 0 with hz | hz | hz
  · have h1 : ¬ (0 ≤ z) := by omega
    have h2 : (0 ≤ -z) := by omega
    unfold addDaysZ
    rw [if_neg h1, if_pos h2]
    exact succDay_iter_predDay_iter _ d h
  · subst hz
    unfold addDaysZ
    simp
  · have h1 : (0 ≤ z) := by omega
    have h2 : ¬ (0 ≤ -z) := by omega
    unfold addDaysZ
    rw [if_pos h1, if_neg h2]
    have : (- -z).toNat = z.toNat := by omega
    rw [this]
    exact predDay_iter_succDay_iter _ d h

theorem DateTime.extFields (a b : DateTime)
    (h1 : a.year = b.year) (h2 : a.month = b.month) (h3 : a.day = b.day)
    (h4 : a.hour = b.hour) (h5 : a.minute = b.minute) (h6 : a.second = b.second)
    (h7 : a.ms = b.ms) : a = b := by
  cases a; cases b; simp_all

theorem succDay_setTime (x : DateTime) (a b : Nat) :
    succDay { x with hour := a, minute := b } = { succDay x with hour := a, minute := b } := by
  obtain ⟨y, mo, da, hh, mi, s, ms⟩ := x
  unfold succDay
  split_ifs <;> rfl

theorem predDay_setTime (x : DateTime) (a b : Nat) :
    predDay { x with hour := a, minute := b } = { predDay x with hour := a, minute := b } := by
  obtain ⟨y, mo, da, hh, mi, s, ms⟩ := x
  unfold predDay
  split_ifs <;> rfl

theorem succDay_iter_setTime (n : Nat) (x : DateTime) (a b : Nat) :
    succDay^[n] { x with hour := a, minute := b } = { succDay^[n] x with hour := a, minute := b } := by
  induction n generalizing x with
  | zero => rfl
  | succ n ih =>
    rw [Function.iterate_succ_apply, Function.iterate_succ_apply, succDay_setTime, ih]

theorem predDay_iter_setTime (n : Nat) (x : DateTime) (a b : Nat) :
    predDay^[n] { x with hour := a, minute := b } = { predDay^[n] x with hour := a, minute := b } := by
  induction n generalizing x with
  | zero => rfl
  | succ n ih =>
    rw [Function.iterate_succ_apply, Function.iterate_succ_apply, predDay_setTime, ih]

theorem addDaysZ_setTime (w : Int) (x : DateTime) (a b : Nat) :
    addDaysZ w { x with hour := a, minute := b } = { addDaysZ w x with hour := a, minute := b } := by
  unfold addDaysZ
  split_ifs
  · exact succDay_iter_setTime _ x a b
  · exact predDay_iter_setTime _ x a b

theorem addMinutesZ_shape (z : Int) (d : DateTime) :
    addMinutesZ z d =
      { addDaysZ (((d.hour : Int) * 60 + (d.minute : Int) + z) / 1440) d with
        hour := ((((d.hour : Int) * 60 + (d.minute : Int) + z) % 1440) / 60).toNat,
        minute := ((((d.hour : Int) * 60 + (d.minute : Int) + z) % 1440) % 60).toNat } := rfl

theorem addMinutesZ_valid (z : Int) (d : DateTime) (h : Valid d) :
    Valid (addMinutesZ z d) := by
  rw [addMinutesZ_shape]
  have hd := addDaysZ_valid (((d.hour : Int) * 60 + (d.minute : Int) + z) / 1440) d h
  obtain ⟨a1, a2, a3, a4, a5, a6, a7⟩ := hd
  refine ⟨a1, a2, a3, ?_, ?_, a6, a7⟩ <;> simp only <;> omega

theorem addMinutesZ_neg (z : Int) (d : DateTime) (h : Valid d) :
    addMinutesZ (-z) (addMinutesZ z d) = d := by
  obtain ⟨hm, hd1, hd2, hhh, hmin, hs, hms⟩ := h
  rw [addMinutesZ_shape z d]
  rw [addMinutesZ_shape (-z) _]
  rw [addDaysZ_setTime]
  -- abbreviate the inner quantities
  have hKey :
      ((((((d.hour : Int) * 60 + (d.minute : Int) + z) % 1440) / 60).toNat : Int) * 60 +
          (((((d.hour : Int) * 60 + (d.minute : Int) + z) % 1440) % 60).toNat : Int) + -z)
        = (d.hour : Int) * 60 + (d.minute : Int)
          - 1440 * (((d.hour : Int) * 60 + (d.minute : Int) + z) / 1440) := by
    omega
  rw [hKey]
  have hq : ((d.hour : Int) * 60 + (d.minute : Int)
      - 1440 * (((d.hour : Int) * 60 + (d.minute : Int) + z) / 1440)) / 1440
      = -(((d.hour : Int) * 60 + (d.minute : Int) + z) / 1440) := by
    omega
  rw [hq, addDaysZ_neg_addDaysZ _ _ ⟨hm, hd1, hd2, hhh, hmin, hs, hms⟩]
  refine DateTime.extFields _ _ rfl rfl rfl ?_ ?_ rfl rfl <;> simp only <;> omega

theorem toMs_addMinutesZ (z : Int) (d : DateTime) (h : Valid d) :
    toMs (addMinutesZ z d) = toMs d + z * 60000 := by
  rw [addMinutesZ_shape]
  have hdn := dayNumber_addDaysZ (((d.hour : Int) * 60 + (d.minute : Int) + z) / 1440) d h
  have ht := addDaysZ_time (((d.hour : Int) * 60 + (d.minute : Int) + z) / 1440) d
  obtain ⟨-, -, h6, h7⟩ := ht
  unfold toMs
  simp only [h6, h7]
  have hdn2 : ∀ (x : DateTime) (a b c e : Nat),
      dayNumber (DateTime.mk x.year x.month x.day a b c e) = dayNumber x :=
    fun _ _ _ _ _ => rfl
  rw [hdn2, hdn]
  omega

theorem addMonthsOne_valid (d : DateTime) (h : Valid d) : Valid (addMonthsOne d) := by
  obtain ⟨hm, hd1, hd2, hhh, hmin, hs, hms⟩ := h
  unfold addMonthsOne
  have p1 := daysInMonth_pos (isLeap (d.year + 1)) 0
  have p2 := daysInMonth_pos (isLeap d.year) (d.month + 1)
  split_ifs <;> refine ⟨?_, ?_, ?_, ?_, ?_, ?_, ?_⟩ <;> simp only <;> omega

theorem subMonthsOne_valid (d : DateTime) (h : Valid d) : Valid (subMonthsOne d) := by
  obtain ⟨hm, hd1, hd2, hhh, hmin, hs, hms⟩ := h
  unfold subMonthsOne
  have p1 := daysInMonth_pos (isLeap (d.year - 1)) 11
  have p2 := daysInMonth_pos (isLeap d.year) (d.month - 1)
  split_ifs <;> refine ⟨?_, ?_, ?_, ?_, ?_, ?_, ?_⟩ <;> simp only <;> omega

theorem addMonthsOne_day_one (d : DateTime) (hd : d.day = 1) : (addMonthsOne d).day = 1 := by
  unfold addMonthsOne
  have p1 := daysInMonth_pos (isLeap (d.year + 1)) 0
  have p2 := daysInMonth_pos (isLeap d.year) (d.month + 1)
  split_ifs <;> simp only <;> omega

theorem subMonthsOne_day_one (d : DateTime) (hd : d.day = 1) : (subMonthsOne d).day = 1 := by
  unfold subMonthsOne
  have p1 := daysInMonth_pos (isLeap (d.year - 1)) 11
  have p2 := daysInMonth_pos (isLeap d.year) (d.month - 1)
  split_ifs <;> simp only <;> omega

theorem addMonthsOne_subMonthsOne (d : DateTime) (h : Valid d) (hd : d.day = 1) :
    addMonthsOne (subMonthsOne d) = d := by
  obtain ⟨hm, hd1, hd2, hhh, hmin, hs, hms⟩ := h
  obtain ⟨y, mo, da, hh, mi, s, ms⟩ := d
  simp only at hm hd1 hd2 hd
  subst hd
  have p1 := daysInMonth_pos (isLeap (y - 1)) 11
  have p2 := daysInMonth_pos (isLeap y) (mo - 1)
  have p3 := daysInMonth_pos (isLeap y) mo
  have p4 := daysInMonth_pos (isLeap y) 0
  unfold subMonthsOne addMonthsOne
  split_ifs <;> simp_all <;> try omega
  all_goals
    have hmm : mo - 1 + 1 = mo := by omega
  all_goals
    rw [hmm] at *
  all_goals
    omega

theorem addMonthsOne_time (d : DateTime) :
    (addMonthsOne d).hour = d.hour ∧ (addMonthsOne d).minute = d.minute ∧
      (addMonthsOne d).second = d.second ∧ (addMonthsOne d).ms = d.ms :=
  ⟨rfl, rfl, rfl, rfl⟩

theorem dayNumber_addMonthsOne_day_one (d : DateTime) (h : Valid d) (hd : d.day = 1) :
    dayNumber (addMonthsOne d) = dayNumber d + daysInMonth (isLeap d.year) d.month := by
  obtain ⟨hm, hd1, hd2, -⟩ := h
  unfold addMonthsOne
  split_ifs with h1
  · have hy := daysBeforeYear_step d.year
    have he := daysBeforeMonth_eleven (isLeap d.year)
    have h31 : daysInMonth (isLeap d.year) 11 = 31 := rfl
    have h0 : daysBeforeMonth (isLeap (d.year + 1)) 0 = 0 := rfl
    have hmin1 : min d.day (daysInMonth (isLeap (d.year + 1)) 0) = 1 := by
      have := daysInMonth_pos (isLeap (d.year + 1)) 0
      omega
    simp only [dayNumber, hmin1, h0, h1, hd, hy, he, h31]
    split_ifs <;> omega
  · have hstep := daysBeforeMonth_step (isLeap d.year) d.month (by omega)
    have hmin1 : min d.day (daysInMonth (isLeap d.year) (d.month + 1)) = 1 := by
      have := daysInMonth_pos (isLeap d.year) (d.month + 1)
      omega
    simp only [dayNumber, hmin1, hd]
    omega

theorem toMs_addMonthsOne_gt (d : DateTime) (h : Valid d) (hd : d.day = 1) :
    toMs d < toMs (addMonthsOne d) := by
  have hdn := dayNumber_addMonthsOne_day_one d h hd
  have hp := daysInMonth_pos (isLeap d.year) d.month
  obtain ⟨t1, t2, t3, t4⟩ := addMonthsOne_time d
  unfold toMs
  rw [hdn, t1, t2, t3, t4]
  have : (1 : Int) ≤ daysInMonth (isLeap d.year) d.month := by omega
  nlinarith [this]

theorem toMs_succDay (d : DateTime) (h : Valid d) :
    toMs (succDay d) = toMs d + 86400000 := by
  have hdn := dayNumber_succDay d h
  obtain ⟨t1, t2, t3, t4⟩ := succDay_time d
  unfold toMs
  rw [hdn, t1, t2, t3, t4]
  ring

theorem toMs_succDay_iter (n : Nat) (d : DateTime) (h : Valid d) :
    toMs (succDay^[n] d) = toMs d + n * 86400000 := by
  induction n generalizing d with
  | zero => simp
  | succ n ih =>
    rw [Function.iterate_succ_apply]
    rw [ih _ (succDay_valid d h), toMs_succDay d h]
    push_cast
    ring

theorem dayNumber_setFields (x : DateTime) (a b c e : Nat) :
    dayNumber (DateTime.mk x.year x.month x.day a b c e) = dayNumber x := rfl

theorem scaleValid_inc (s : PeriodScale) (d : DateTime) (h : ScaleValid s d) :
    ScaleValid s (incP s d) := by
  obtain ⟨hv, h5⟩ := h
  cases s <;> simp only [incP]
  case hours => exact ⟨addMinutesZ_valid 15 d hv, nofun⟩
  case day => exact ⟨addMinutesZ_valid 60 d hv, nofun⟩
  case week => exact ⟨succDay_valid d hv, nofun⟩
  case biWeek => exact ⟨succDay_valid d hv, nofun⟩
  case month => exact ⟨succDay_valid d hv, nofun⟩
  case quarter => exact ⟨succDay_iter_valid 7 d hv, nofun⟩
  case year => exact ⟨succDay_iter_valid 7 d hv, nofun⟩
  case fiveYears =>
    exact ⟨addMonthsOne_valid d hv, fun _ => addMonthsOne_day_one d (h5 rfl)⟩

theorem scaleValid_dec (s : PeriodScale) (d : DateTime) (h : ScaleValid s d) :
    ScaleValid s (decP s d) := by
  obtain ⟨hv, h5⟩ := h
  cases s <;> simp only [decP]
  case hours => exact ⟨addMinutesZ_valid (-15) d hv, nofun⟩
  case day => exact ⟨addMinutesZ_valid (-60) d hv, nofun⟩
  case week => exact ⟨predDay_valid d hv, nofun⟩
  case biWeek => exact ⟨predDay_valid d hv, nofun⟩
  case month => exact ⟨predDay_valid d hv, nofun⟩
  case quarter => exact ⟨predDay_iter_valid 7 d hv, nofun⟩
  case year => exact ⟨predDay_iter_valid 7 d hv, nofun⟩
  case fiveYears =>
    exact ⟨subMonthsOne_valid d hv, fun _ => subMonthsOne_day_one d (h5 rfl)⟩

theorem scaleValid_dec_iter (s : PeriodScale) (n : Nat) (d : DateTime) (h : ScaleValid s d) :
    ScaleValid s ((decP s)^[n] d) := by
  induction n generalizing d with
  | zero => simpa using h
  | succ n ih =>
    rw [Function.iterate_succ_apply]
    exact ih _ (scaleValid_dec s d h)

theorem scaleValid_inc_iter (s : PeriodScale) (n : Nat) (d : DateTime) (h : ScaleValid s d) :
    ScaleValid s ((incP s)^[n] d) := by
  induction n generalizing d with
  | zero => simpa using h
  | succ n ih =>
    rw [Function.iterate_succ_apply]
    exact ih _ (scaleValid_inc s d h)

theorem inc_dec (s : PeriodScale) (d : DateTime) (h : ScaleValid s d) :
    incP s (decP s d) = d := by
  obtain ⟨hv, h5⟩ := h
  cases s <;> simp only [incP, decP]
  case hours =>
    have := addMinutesZ_neg (-15) d hv
    norm_num at this
    exact this
  case day =>
    have := addMinutesZ_neg (-60) d hv
    norm_num at this
    exact this
  case week => exact succDay_predDay d hv
  case biWeek => exact succDay_predDay d hv
  case month => exact succDay_predDay d hv
  case quarter => exact succDay_iter_predDay_iter 7 d hv
  case year => exact succDay_iter_predDay_iter 7 d hv
  case fiveYears => exact addMonthsOne_subMonthsOne d hv (h5 rfl)

theorem toMs_inc_gt (s : PeriodScale) (d : DateTime) (h : ScaleValid s d) :
    toMs d < toMs (incP s d) := by
  obtain ⟨hv, h5⟩ := h
  cases s <;> simp only [incP]
  case hours => rw [toMs_addMinutesZ 15 d hv]; omega
  case day => rw [toMs_addMinutesZ 60 d hv]; omega
  case week => rw [toMs_succDay d hv]; omega
  case biWeek => rw [toMs_succDay d hv]; omega
  case month => rw [toMs_succDay d hv]; omega
  case quarter => rw [toMs_succDay_iter 7 d hv]; omega
  case year => rw [toMs_succDay_iter 7 d hv]; omega
  case fiveYears => exact toMs_addMonthsOne_gt d hv (h5 rfl)

theorem alignDate_scaleValid (s : PeriodScale) (d : DateTime) (h : Valid d) :
    ScaleValid s (alignDate s d) := by
  obtain ⟨hm, hd1, hd2, hhh, hmin, hs, hms⟩ := h
  cases s <;> simp only [alignDate]
  case hours =>
    refine ⟨⟨hm, hd1, hd2, hhh, ?_, ?_, ?_⟩, nofun⟩ <;> simp only <;> omega
  case day =>
    refine ⟨⟨hm, hd1, hd2, hhh, ?_, ?_, ?_⟩, nofun⟩ <;> simp only <;> omega
  case week =>
    refine ⟨⟨hm, hd1, hd2, ?_, ?_, ?_, ?_⟩, nofun⟩ <;> simp only <;> omega
  case biWeek =>
    refine ⟨⟨hm, hd1, hd2, ?_, ?_, ?_, ?_⟩, nofun⟩ <;> simp only <;> omega
  case month =>
    refine ⟨⟨hm, hd1, hd2, ?_, ?_, ?_, ?_⟩, nofun⟩ <;> simp only <;> omega
  case quarter =>
    obtain ⟨a1, a2, a3, -, -, -, -⟩ := predDay_iter_valid (weekday d) d
      ⟨hm, hd1, hd2, hhh, hmin, hs, hms⟩
    refine ⟨⟨a1, a2, a3, ?_, ?_, ?_, ?_⟩, nofun⟩ <;> simp only <;> omega
  case year =>
    obtain ⟨a1, a2, a3, -, -, -, -⟩ := predDay_iter_valid (weekday d) d
      ⟨hm, hd1, hd2, hhh, hmin, hs, hms⟩
    refine ⟨⟨a1, a2, a3, ?_, ?_, ?_, ?_⟩, nofun⟩ <;> simp only <;> omega
  case fiveYears =>
    have hp := daysInMonth_pos (isLeap d.year) d.month
    refine ⟨⟨hm, ?_, ?_, ?_, ?_, ?_, ?_⟩, fun _ => rfl⟩ <;> simp only <;> omega

theorem backChain_length (f : DateTime → DateTime) (x : DateTime) (k : Nat) :
    (backChain f x k).length = k := by
  induction k with
  | zero => rfl
  | succ k ih => simp [backChain, ih]

theorem fwdChain_length (f : DateTime → DateTime) (x : DateTime) (k : Nat) :
    (fwdChain f x k).length = k := by
  simp [fwdChain]

theorem backChain_getElem? (f : DateTime → DateTime) (x : DateTime) :
    ∀ (k i : Nat), i < k → (backChain f x k)[i]? = some (f^[k - i] x) := by
  intro k
  induction k with
  | zero => omega
  | succ k ih =>
    intro i hi
    match i with
    | 0 => simp [backChain]
    | j + 1 =>
      have hj : j < k := by omega
      have : (k + 1) - (j + 1) = k - j := by omega
      simp only [backChain, List.getElem?_cons_succ, this]
      exact ih j hj

theorem fwdChain_getElem? (f : DateTime → DateTime) (x : DateTime) (k i : Nat) (h : i < k) :
    (fwdChain f x k)[i]? = some (f^[i + 1] x) := by
  simp [fwdChain, List.getElem?_map, List.getElem?_range, h]

theorem backChain_mem (f : DateTime → DateTime) (x : DateTime) (k : Nat) (d : DateTime)
    (hd : d ∈ backChain f x k) : ∃ j, 1 ≤ j ∧ j ≤ k ∧ d = f^[j] x := by
  induction k with
  | zero => simp [backChain] at hd
  | succ k ih =>
    simp only [backChain, List.mem_cons] at hd
    rcases hd with h | h
    · exact ⟨k + 1, by omega, by omega, h⟩
    · obtain ⟨j, hj1, hj2, hj3⟩ := ih h
      exact ⟨j, hj1, by omega, hj3⟩

theorem fwdChain_mem (f : DateTime → DateTime) (x : DateTime) (k : Nat) (d : DateTime)
    (hd : d ∈ fwdChain f x k) : ∃ j, 1 ≤ j ∧ j ≤ k ∧ d = f^[j] x := by
  simp only [fwdChain, List.mem_map, List.mem_range] at hd
  obtain ⟨i, hi, hix⟩ := hd
  exact ⟨i + 1, by omega, by omega, hix.symm⟩

theorem headI_getElem? {l : List DateTime} (h : l ≠ []) : l[0]? = some l.headI := by
  cases l with
  | nil => exact absurd rfl h
  | cons a t => simp [List.headI]

theorem get_of_getElem? {α : Type} (l : List α) (i : Nat) (a : α) (h : i < l.length)
    (he : l[i]? = some a) : l.get ⟨i, h⟩ = a := by
  rw [List.get_eq_getElem]
  rw [List.getElem?_eq_getElem h] at he
  exact Option.some.inj he

/-- Element description of the generated window: backward iterates at indices
`0 ≤ i < 100`, the center at `100`, forward iterates above. -/
theorem genAround_getElem? (s : PeriodScale) (c : DateTime) (i : Nat) (hi : i < 200) :
    (genAround s c)[i]? =
      some (if i < 100 then (decP s)^[100 - i] c else (incP s)^[i - 100] c) := by
  unfold genAround
  rw [List.getElem?_append]
  rw [backChain_length]
  split_ifs with h
  · exact backChain_getElem? _ _ _ _ h
  · obtain ⟨j, hij⟩ := Nat.exists_eq_add_of_le (le_of_not_lt h)
    subst hij
    have hj100 : 100 + j - 100 = j := by omega
    rw [hj100]
    match j with
    | 0 => simp
    | j' + 1 =>
      rw [List.getElem?_cons_succ]
      exact fwdChain_getElem? _ _ _ _ (by omega)

theorem genAround_length (s : PeriodScale) (c : DateTime) :
    (genAround s c).length = 200 := by
  simp [genAround, backChain_length, fwdChain_length]

theorem genAround_forall_scaleValid (s : PeriodScale) (c : DateTime) (h : ScaleValid s c) :
    ∀ d ∈ genAround s c, ScaleValid s d := by
  intro d hd
  unfold genAround at hd
  rw [List.mem_append, List.mem_cons] at hd
  rcases hd with hd | hd | hd
  · obtain ⟨j, -, -, hj⟩ := backChain_mem _ _ _ _ hd
    subst hj
    exact scaleValid_dec_iter s j c h
  · subst hd
    exact h
  · obtain ⟨j, -, -, hj⟩ := fwdChain_mem _ _ _ _ hd
    subst hj
    exact scaleValid_inc_iter s j c h

theorem genAround_chain (s : PeriodScale) (c : DateTime) (h : ScaleValid s c) :
    List.Chain' (fun a b => b = incP s a) (genAround s c) := by
  rw [List.chain'_iff_get]
  intro i hlen
  rw [genAround_length] at hlen
  have hb1 : i < (genAround s c).length := by rw [genAround_length]; omega
  have hb2 : i + 1 < (genAround s c).length := by rw [genAround_length]; omega
  have h1 := get_of_getElem? _ i _ hb1 (genAround_getElem? s c i (by omega))
  have h2 := get_of_getElem? _ (i + 1) _ hb2 (genAround_getElem? s c (i + 1) (by omega))
  rw [h1, h2]
  by_cases hc1 : i + 1 < 100
  · rw [if_pos hc1, if_pos (show i < 100 by omega)]
    have hsplit : 100 - i = (100 - (i + 1)) + 1 := by omega
    rw [hsplit, Function.iterate_succ_apply' (f := decP s)]
    rw [inc_dec s _ (scaleValid_dec_iter s _ c h)]
  · by_cases hc2 : i < 100
    · -- i = 99: the junction between the backward half and the center
      have h99 : i = 99 := by omega
      subst h99
      rw [if_neg hc1, if_pos hc2]
      norm_num
      exact (inc_dec s c h).symm
    · rw [if_neg hc1, if_neg hc2]
      have hsplit : i + 1 - 100 = (i - 100) + 1 := by omega
      rw [hsplit, Function.iterate_succ_apply' (f := incP s)]

theorem genAround_wf (s : PeriodScale) (c : DateTime) (h : ScaleValid s c) :
    WF s (genAround s c) :=
  ⟨genAround_length s c, genAround_forall_scaleValid s c h, genAround_chain s c h⟩

theorem take_headI (w : List DateTime) (n : Nat) (hn : 1 ≤ n) (hw : w ≠ []) :
    (w.take n).headI = w.headI := by
  cases w with
  | nil => exact absurd rfl hw
  | cons a t =>
    match n with
    | n' + 1 => simp [List.headI]

theorem headI_mem (w : List DateTime) (hw : w ≠ []) : w.headI ∈ w := by
  cases w with
  | nil => exact absurd rfl hw
  | cons a t => simp [List.headI]

theorem chain'_get_step (s : PeriodScale) (w : List DateTime)
    (hch : List.Chain' (fun a b => b = incP s a) w) (i : Nat) (h : i + 1 < w.length) :
    w.get ⟨i + 1, h⟩ = incP s (w.get ⟨i, by omega⟩) :=
  (List.chain'_iff_get.mp hch) i (by omega)

theorem chain'_get_iterate (s : PeriodScale) (w : List DateTime)
    (hch : List.Chain' (fun a b => b = incP s a) w) (i k : Nat) (h : i + k < w.length) :
    w.get ⟨i + k, h⟩ = (incP s)^[k] (w.get ⟨i, by omega⟩) := by
  induction k with
  | zero => rfl
  | succ k ih =>
    have hik : i + k + 1 < w.length := by omega
    show w.get ⟨i + k + 1, hik⟩ = _
    rw [chain'_get_step s w hch (i + k) hik, ih (by omega)]
    rw [Function.iterate_succ_apply' (f := incP s)]

theorem shiftWindowLeft_getElem? (s : PeriodScale) (w : List DateTime)
    (hlen : w.length = 200) (i : Nat) (hi : i < 200) :
    (shiftWindowLeft s w)[i]? =
      if i < 100 then some ((decP s)^[100 - i] w.headI) else w[i - 100]? := by
  have hne : w ≠ [] := by
    intro hnil
    rw [hnil] at hlen
    simp at hlen
  unfold shiftWindowLeft
  rw [if_neg (by simpa [List.isEmpty_iff] using hne)]
  simp only
  rw [take_headI w _ (by omega) hne]
  rw [List.getElem?_append, backChain_length]
  split_ifs with h
  · exact backChain_getElem? _ _ _ _ h
  · rw [List.getElem?_take]
    rw [if_pos (by omega)]

theorem shiftWindowLeft_length (s : PeriodScale) (w : List DateTime) (hlen : w.length = 200) :
    (shiftWindowLeft s w).length = 200 := by
  have hne : w ≠ [] := by
    intro hnil
    rw [hnil] at hlen
    simp at hlen
  unfold shiftWindowLeft
  rw [if_neg (by simpa [List.isEmpty_iff] using hne)]
  simp [backChain_length, hlen]

theorem getLastD_drop (w : List DateTime) (hlen : w.length = 200) :
    (w.drop 100).getLastD default = w.get ⟨199, by omega⟩ := by
  rw [List.getLastD_eq_getLast?, List.getLast?_eq_getElem?]
  have hdl : (w.drop 100).length = 100 := by simp [hlen]
  rw [hdl]
  rw [List.getElem?_drop]
  have : (100 : Nat) + (100 - 1) = 199 := by omega
  rw [this]
  rw [List.getElem?_eq_getElem (by omega)]
  simp [List.get_eq_getElem]

theorem shiftWindowRight_getElem? (s : PeriodScale) (w : List DateTime)
    (hlen : w.length = 200) (i : Nat) (hi : i < 200) :
    (shiftWindowRight s w)[i]? =
      if i < 100 then w[100 + i]?
      else some ((incP s)^[i - 100 + 1] (w.get ⟨199, by omega⟩)) := by
  have hne : w ≠ [] := by
    intro hnil
    rw [hnil] at hlen
    simp at hlen
  unfold shiftWindowRight
  rw [if_neg (by simpa [List.isEmpty_iff] using hne)]
  simp only
  rw [getLastD_drop w hlen]
  rw [List.getElem?_append]
  have hdl : (w.drop 100).length = 100 := by simp [hlen]
  rw [hdl]
  split_ifs with h
  · rw [List.getElem?_drop]
  · rw [fwdChain_getElem? _ _ _ _ (by omega)]

theorem shiftWindowRight_length (s : PeriodScale) (w : List DateTime) (hlen : w.length = 200) :
    (shiftWindowRight s w).length = 200 := by
  have hne : w ≠ [] := by
    intro hnil
    rw [hnil] at hlen
    simp at hlen
  unfold shiftWindowRight
  rw [if_neg (by simpa [List.isEmpty_iff] using hne)]
  simp [fwdChain_length, hlen]

theorem getElem?_self (w : List DateTime) (j : Nat) (h : j < w.length) :
    w[j]? = some (w.get ⟨j, h⟩) := by
  rw [List.getElem?_eq_getElem h, List.get_eq_getElem]

theorem mem_of_getElem?_some (w : List DateTime) (j : Nat) (d : DateTime)
    (h : w[j]? = some d) : d ∈ w :=
  List.mem_iff_getElem?.mpr ⟨j, h⟩

theorem shiftWindowLeft_wf (s : PeriodScale) (w : List DateTime) (h : WF s w) :
    WF s (shiftWindowLeft s w) := by
  obtain ⟨hlen, hsv, hch⟩ := h
  have hne : w ≠ [] := by
    intro hnil
    rw [hnil] at hlen
    simp at hlen
  have hsv0 : ScaleValid s w.headI := hsv _ (headI_mem w hne)
  refine ⟨shiftWindowLeft_length s w hlen, ?_, ?_⟩
  · intro d hd
    obtain ⟨i, hi⟩ := List.mem_iff_getElem?.mp hd
    have hilen : i < 200 := by
      by_contra hnot
      rw [List.getElem?_eq_none (by rw [shiftWindowLeft_length s w hlen]; omega)] at hi
      exact Option.noConfusion hi
    rw [shiftWindowLeft_getElem? s w hlen i hilen] at hi
    split_ifs at hi with hcase
    · have : d = (decP s)^[100 - i] w.headI := by
        exact (Option.some.inj hi).symm
      subst this
      exact scaleValid_dec_iter s _ _ hsv0
    · exact hsv d (mem_of_getElem?_some w (i - 100) d hi)
  · rw [List.chain'_iff_get]
    intro i hlen2
    rw [shiftWindowLeft_length s w hlen] at hlen2
    have hb1 : i < (shiftWindowLeft s w).length := by
      rw [shiftWindowLeft_length s w hlen]; omega
    have hb2 : i + 1 < (shiftWindowLeft s w).length := by
      rw [shiftWindowLeft_length s w hlen]; omega
    by_cases hc1 : i + 1 < 100
    · have h1 := get_of_getElem? _ i _ hb1
        ((shiftWindowLeft_getElem? s w hlen i (by omega)).trans (if_pos (by omega)))
      have h2 := get_of_getElem? _ (i + 1) _ hb2
        ((shiftWindowLeft_getElem? s w hlen (i + 1) (by omega)).trans (if_pos hc1))
      rw [h1, h2]
      have hsplit : 100 - i = (100 - (i + 1)) + 1 := by omega
      rw [hsplit, Function.iterate_succ_apply' (f := decP s)]
      rw [inc_dec s _ (scaleValid_dec_iter s _ _ hsv0)]
    · by_cases hc2 : i < 100
      · have h99 : i = 99 := by omega
        subst h99
        have h1 := get_of_getElem? _ 99 _ hb1
          ((shiftWindowLeft_getElem? s w hlen 99 (by omega)).trans (if_pos (by omega)))
        have he : (shiftWindowLeft s w)[100]? = w[0]? :=
          (shiftWindowLeft_getElem? s w hlen 100 (by omega)).trans (if_neg (by omega))
        rw [headI_getElem? hne] at he
        have h2 := get_of_getElem? _ 100 _ hb2 he
        rw [h1, h2]
        norm_num
        exact (inc_dec s _ hsv0).symm
      · have hw1 : i - 100 < w.length := by omega
        have hw2 : i - 100 + 1 < w.length := by omega
        have he1 : (shiftWindowLeft s w)[i]? = some (w.get ⟨i - 100, hw1⟩) :=
          ((shiftWindowLeft_getElem? s w hlen i (by omega)).trans (if_neg hc2)).trans
            (getElem?_self w _ hw1)
        have he2 : (shiftWindowLeft s w)[i + 1]? = some (w.get ⟨i - 100 + 1, hw2⟩) := by
          refine ((shiftWindowLeft_getElem? s w hlen (i + 1) (by omega)).trans
            (if_neg (by omega))).trans ?_
          have : i + 1 - 100 = i - 100 + 1 := by omega
          rw [this]
          exact getElem?_self w _ hw2
        have h1 := get_of_getElem? _ i _ hb1 he1
        have h2 := get_of_getElem? _ (i + 1) _ hb2 he2
        rw [h1, h2]
        exact chain'_get_step s w hch (i - 100) hw2

theorem shiftWindowRight_wf (s : PeriodScale) (w : List DateTime) (h : WF s w) :
    WF s (shiftWindowRight s w) := by
  obtain ⟨hlen, hsv, hch⟩ := h
  have hne : w ≠ [] := by
    intro hnil
    rw [hnil] at hlen
    simp at hlen
  have hb199 : (199 : Nat) < w.length := by omega
  have hsvb : ScaleValid s (w.get ⟨199, hb199⟩) := hsv _ (List.get_mem w 199 hb199)
  refine ⟨shiftWindowRight_length s w hlen, ?_, ?_⟩
  · intro d hd
    obtain ⟨i, hi⟩ := List.mem_iff_getElem?.mp hd
    have hilen : i < 200 := by
      by_contra hnot
      rw [List.getElem?_eq_none (by rw [shiftWindowRight_length s w hlen]; omega)] at hi
      exact Option.noConfusion hi
    rw [shiftWindowRight_getElem? s w hlen i hilen] at hi
    split_ifs at hi with hcase
    · exact hsv d (mem_of_getElem?_some w (100 + i) d hi)
    · have : d = (incP s)^[i - 100 + 1] (w.get ⟨199, hb199⟩) := (Option.some.inj hi).symm
      subst this
      exact scaleValid_inc_iter s _ _ hsvb
  · rw [List.chain'_iff_get]
    intro i hlen2
    rw [shiftWindowRight_length s w hlen] at hlen2
    have hb1 : i < (shiftWindowRight s w).length := by
      rw [shiftWindowRight_length s w hlen]; omega
    have hb2 : i + 1 < (shiftWindowRight s w).length := by
      rw [shiftWindowRight_length s w hlen]; omega
    by_cases hc1 : i + 1 < 100
    · have hw1 : 100 + i < w.length := by omega
      have hw2 : 100 + i + 1 < w.length := by omega
      have he1 : (shiftWindowRight s w)[i]? = some (w.get ⟨100 + i, hw1⟩) :=
        ((shiftWindowRight_getElem? s w hlen i (by omega)).trans (if_pos (by omega))).trans
          (getElem?_self w _ hw1)
      have he2 : (shiftWindowRight s w)[i + 1]? = some (w.get ⟨100 + i + 1, hw2⟩) := by
        refine ((shiftWindowRight_getElem? s w hlen (i + 1) (by omega)).trans
          (if_pos hc1)).trans ?_
        have : 100 + (i + 1) = 100 + i + 1 := by omega
        rw [this]
        exact getElem?_self w _ hw2
      have h1 := get_of_getElem? _ i _ hb1 he1
      have h2 := get_of_getElem? _ (i + 1) _ hb2 he2
      rw [h1, h2]
      exact chain'_get_step s w hch (100 + i) hw2
    · by_cases hc2 : i < 100
      · have h99 : i = 99 := by omega
        subst h99
        have hw1 : 100 + 99 < w.length := by omega
        have he1 : (shiftWindowRight s w)[99]? = some (w.get ⟨100 + 99, hw1⟩) :=
          ((shiftWindowRight_getElem? s w hlen 99 (by omega)).trans (if_pos (by omega))).trans
            (getElem?_self w _ hw1)
        have h1 := get_of_getElem? _ 99 _ hb1 he1
        have h2 := get_of_getElem? _ 100 _ hb2
          ((shiftWindowRight_getElem? s w hlen 100 (by omega)).trans (if_neg (by omega)))
        rw [h1, h2]
        norm_num
      · have h1 := get_of_getElem? _ i _ hb1
          ((shiftWindowRight_getElem? s w hlen i (by omega)).trans (if_neg hc2))
        have h2 := get_of_getElem? _ (i + 1) _ hb2
          ((shiftWindowRight_getElem? s w hlen (i + 1) (by omega)).trans (if_neg (by omega)))
        rw [h1, h2]
        have hsplit : i + 1 - 100 + 1 = (i - 100 + 1) + 1 := by omega
        rw [hsplit, Function.iterate_succ_apply' (f := incP s)]

theorem reachable_wf (s : PeriodScale) (w : List DateTime) (h : Reachable s w) : WF s w := by
  induction h with
  | init c hc => exact genAround_wf s _ (alignDate_scaleValid s c hc)
  | left hw ih => exact shiftWindowLeft_wf s _ ih
  | right hw ih => exact shiftWindowRight_wf s _ ih

theorem get_congr (w : List DateTime) (i j : Nat) (hi : i < w.length) (hj : j < w.length)
    (hij : i = j) : w.get ⟨i, hi⟩ = w.get ⟨j, hj⟩ := by
  subst hij
  rfl

/-- The round-trip law at the invariant level: on a 200-period contiguous
window, a left shift followed by a right shift restores the window exactly. -/
theorem shift_round_trip_wf (s : PeriodScale) (w : List DateTime) (h : WF s w) :
    shiftWindowRight s (shiftWindowLeft s w) = w := by
  obtain ⟨hlen, hsv, hch⟩ := h
  obtain ⟨hLlen, -, -⟩ := shiftWindowLeft_wf s w ⟨hlen, hsv, hch⟩
  apply List.ext_getElem?
  intro n
  by_cases hn : n < 200
  · rw [shiftWindowRight_getElem? s _ hLlen n hn]
    split_ifs with h100
    · rw [shiftWindowLeft_getElem? s w hlen (100 + n) (by omega), if_neg (by omega)]
      congr 1
      omega
    · have hL199 : (shiftWindowLeft s w).get ⟨199, by rw [hLlen]; omega⟩
          = w.get ⟨99, by omega⟩ := by
        apply get_of_getElem?
        rw [shiftWindowLeft_getElem? s w hlen 199 (by omega), if_neg (by omega)]
        exact getElem?_self w 99 (by omega)
      rw [hL199]
      have hiter := chain'_get_iterate s w hch 99 (n - 99) (by omega)
      have hone : n - 100 + 1 = n - 99 := by omega
      rw [hone]
      rw [getElem?_self w n (by omega)]
      exact congrArg some
        ((get_congr w n (99 + (n - 99)) (by omega) (by omega) (by omega)).trans hiter).symm
  · rw [List.getElem?_eq_none (by rw [shiftWindowRight_length s _ hLlen]; omega)]
    rw [List.getElem?_eq_none (by omega)]

-- ### Supporting lemmas for the claim theorems

theorem widthRem_pos (s : PeriodScale) : 0 < widthRem s := by
  cases s <;> norm_num [widthRem]

theorem chain_lt_of_chain_inc (s : PeriodScale) (w : List DateTime)
    (hsv : ∀ d ∈ w, ScaleValid s d)
    (hch : List.Chain' (fun a b => b = incP s a) w) :
    List.Chain' (fun a b => toMs a < toMs b) w := by
  induction w with
  | nil => exact List.chain'_nil
  | cons a t ih =>
    rw [List.chain'_cons'] at hch ⊢
    refine ⟨?_, ih (fun d hd => hsv d (List.mem_cons_of_mem a hd)) hch.2⟩
    intro y hy
    have hrel := hch.1 y hy
    subst hrel
    exact toMs_inc_gt s a (hsv a (List.mem_cons_self a t))

theorem weekday_zero_after_sub (d : DateTime) (h : Valid d) :
    weekday (predDay^[weekday d] d) = 0 := by
  have hdn := dayNumber_predDay_iter (weekday d) d h
  unfold weekday
  unfold weekday at hdn
  rw [hdn]
  omega

theorem weekday_setTime (x : DateTime) :
    weekday (DateTime.mk x.year x.month x.day 0 0 0 0) = weekday x := by
  unfold weekday
  rw [dayNumber_setFields]

theorem bracketScan_none_of_all_lt (t : Int) (w : List DateTime)
    (h : ∀ p ∈ w, toMs p < t) : bracketScan t w = none := by
  induction w with
  | nil => rfl
  | cons a u ih =>
    match u with
    | [] => rfl
    | b :: v =>
      unfold bracketScan
      rw [if_neg]
      · rw [ih (fun p hp => h p (List.mem_cons_of_mem a hp))]
        rfl
      · intro hcon
        exact absurd hcon.2 (by
          have := h b (by simp)
          omega)

theorem getLastD_congr (l : List DateTime) (h : l ≠ []) (d1 d2 : DateTime) :
    l.getLastD d1 = l.getLastD d2 := by
  rw [List.getLastD_eq_getLast?, List.getLastD_eq_getLast?]
  cases hl : l.getLast? with
  | none =>
    exact absurd (List.getLast?_eq_none_iff.mp hl) h
  | some z => rfl

-- ### Claim theorems

/-- C1: Window contiguity invariant — for every scale and every window
produced by initialization, `shiftWindowLeft` or `shiftWindowRight`,
consecutive entries satisfy `window[i+1] = add(window[i], increment)` for the
scale's increment, with no gaps or duplicate dates; in particular the
backward-generated half rejoins the forward-generated half exactly. -/
theorem c1_window_contiguity (s : PeriodScale) (w : List DateTime)
    (h : Reachable s w) :
    List.Chain' (fun a b => b = incP s a) w ∧
      List.Pairwise (fun a b => toMs a < toMs b) w ∧
      List.Pairwise (fun a b => a ≠ b) w := by
  obtain ⟨hlen, hsv, hch⟩ := reachable_wf s w h
  have hlt : List.Chain' (fun a b => toMs a < toMs b) w := chain_lt_of_chain_inc s w hsv hch
  haveI : IsTrans DateTime (fun a b => toMs a < toMs b) := ⟨fun _ _ _ => lt_trans⟩
  have hpw : List.Pairwise (fun a b => toMs a < toMs b) w := List.chain'_iff_pairwise.mp hlt
  refine ⟨hch, hpw, hpw.imp ?_⟩
  intro a b hab heq
  rw [heq] at hab
  exact lt_irrefl _ hab

/-- Witness for C1 at a concrete day-scale window. -/
theorem c1_window_contiguity_witness :
    List.Chain' (fun a b => b = incP .day a)
        (initWindow .day ⟨2024, 5, 15, 12, 0, 0, 0⟩) ∧
      List.Pairwise (fun a b => toMs a < toMs b)
        (initWindow .day ⟨2024, 5, 15, 12, 0, 0, 0⟩) ∧
      List.Pairwise (fun a b => a ≠ b) (initWindow .day ⟨2024, 5, 15, 12, 0, 0, 0⟩) :=
  c1_window_contiguity .day _ (Reachable.init ⟨2024, 5, 15, 12, 0, 0, 0⟩ (by decide))

/-- C2: Shift round-trip law — on every reachable (hence non-empty, 200-period)
window, `shiftWindowLeft` immediately followed by `shiftWindowRight`, with no
intervening regeneration, restores the window's date contents and order
exactly. -/
theorem c2_shift_round_trip (s : PeriodScale) (w : List DateTime)
    (h : Reachable s w) :
    shiftWindowRight s (shiftWindowLeft s w) = w :=
  shift_round_trip_wf s w (reachable_wf s w h)

/-- Witness for C2 at a concrete day-scale window. -/
theorem c2_shift_round_trip_witness :
    shiftWindowRight .day (shiftWindowLeft .day (initWindow .day ⟨2024, 5, 15, 12, 0, 0, 0⟩))
      = initWindow .day ⟨2024, 5, 15, 12, 0, 0, 0⟩ :=
  c2_shift_round_trip .day _ (Reachable.init ⟨2024, 5, 15, 12, 0, 0, 0⟩ (by decide))

/-- C3: Edge-triggered shift is seamless — with a 200-period window, a scroll
tick whose `scrollLeft` is below 10% of the total window width performs exactly
one `shiftWindowLeft` (no visible-range recompute that tick), and the
compensating scroll write equals the pre-shift `scrollLeft` plus
`100 * periodWidthPx` while the visible-range indices shift by `+100`;
symmetrically the right edge shifts right with a `-100 * periodWidthPx`
compensation and `-100` on the visible range. -/
theorem c3_edge_triggered_shift (s : PeriodScale) (st : ScrollTick) (cw : Rat)
    (hlen : st.periods.length = 200) :
    (st.scrollLeft < (st.periods.length : Rat) * (widthRem s * 16) * (1 / 10) →
      handleScroll s st cw = ⟨shiftWindowLeft s st.periods,
        st.scrollLeft + 100 * (widthRem s * 16), st.visStart + 100, st.visEnd + 100⟩) ∧
    (¬ st.scrollLeft < (st.periods.length : Rat) * (widthRem s * 16) * (1 / 10) →
      (st.periods.length : Rat) * (widthRem s * 16) * (9 / 10) - cw < st.scrollLeft →
      handleScroll s st cw = ⟨shiftWindowRight s st.periods,
        st.scrollLeft - 100 * (widthRem s * 16), st.visStart - 100, st.visEnd - 100⟩) := by
  constructor
  · intro h1
    unfold handleScroll
    rw [if_pos]
    exact h1
  · intro h1 h2
    unfold handleScroll
    rw [if_neg h1, if_pos h2]

/-- Witness for C3: a concrete tick at each edge of a day-scale window. -/
theorem c3_edge_triggered_shift_witness :
    ((100 : Rat) < ((initWindow .day ⟨2024, 5, 15, 12, 0, 0, 0⟩).length : Rat)
        * (widthRem .day * 16) * (1 / 10) →
      handleScroll .day ⟨initWindow .day ⟨2024, 5, 15, 12, 0, 0, 0⟩, 100, 30, 50⟩ 800
        = ⟨shiftWindowLeft .day (initWindow .day ⟨2024, 5, 15, 12, 0, 0, 0⟩),
            100 + 100 * (widthRem .day * 16), 30 + 100, 50 + 100⟩) ∧
    (¬ (100 : Rat) < ((initWindow .day ⟨2024, 5, 15, 12, 0, 0, 0⟩).length : Rat)
        * (widthRem .day * 16) * (1 / 10) →
      ((initWindow .day ⟨2024, 5, 15, 12, 0, 0, 0⟩).length : Rat)
        * (widthRem .day * 16) * (9 / 10) - 800 < 100 →
      handleScroll .day ⟨initWindow .day ⟨2024, 5, 15, 12, 0, 0, 0⟩, 100, 30, 50⟩ 800
        = ⟨shiftWindowRight .day (initWindow .day ⟨2024, 5, 15, 12, 0, 0, 0⟩),
            100 - 100 * (widthRem .day * 16), 30 - 100, 50 - 100⟩) :=
  c3_edge_triggered_shift .day ⟨initWindow .day ⟨2024, 5, 15, 12, 0, 0, 0⟩, 100, 30, 50⟩ 800
    (genAround_length .day (alignDate .day ⟨2024, 5, 15, 12, 0, 0, 0⟩))

/-- C8: Scale Registry mark rules — each scale's mark classifier returns
exactly the table's classification: hours is major iff the minutes are 0 and
minor otherwise; 5-years is major iff the month is January and minor
otherwise; day, quarter and year are always major; week, bi-week and month
return weekend on weekends and major otherwise. -/
theorem c8_mark_rules (d : DateTime) :
    getMarkType .hours d = (if d.minute = 0 then .major else .minor) ∧
      getMarkType .fiveYears d = (if d.month = 0 then .major else .minor) ∧
      getMarkType .day d = .major ∧
      getMarkType .quarter d = .major ∧
      getMarkType .year d = .major ∧
      getMarkType .week d = (if isWeekend d then .weekend else .major) ∧
      getMarkType .biWeek d = (if isWeekend d then .weekend else .major) ∧
      getMarkType .month d = (if isWeekend d then .weekend else .major) :=
  ⟨rfl, rfl, rfl, rfl, rfl, rfl, rfl, rfl⟩

/-- C9 counterexample: for the quarter scale the aligned date does NOT always
satisfy `isPeriodExactMatch(alignDate(d), d)` — 2024-03-02 (a Saturday) aligns
to the week's Sunday 2024-02-25, which is in a different month, while the
quarter exact-match predicate requires the same month. -/
theorem c9_counterexample :
    Valid ⟨2024, 2, 2, 0, 0, 0, 0⟩ ∧
      isPeriodExactMatch .quarter
        (alignDate .quarter ⟨2024, 2, 2, 0, 0, 0, 0⟩) ⟨2024, 2, 2, 0, 0, 0, 0⟩ = false := by
  decide

/-- C9 (amended): for the six scales other than quarter and year the aligned
boundary date satisfies `isPeriodExactMatch(alignDate(d), d)` for every date;
for quarter and year the weekly alignment can leave the date's month or 7-day
block, and the property fails (see the counterexample). -/
theorem c9_align_exact_match (s : PeriodScale) (d : DateTime)
    (hs : s ≠ PeriodScale.quarter ∧ s ≠ PeriodScale.year) :
    isPeriodExactMatch s (alignDate s d) d = true := by
  obtain ⟨y, mo, da, hh, mi, sec, msec⟩ := d
  cases s
  case quarter => exact absurd rfl hs.1
  case year => exact absurd rfl hs.2
  case hours =>
    simp [isPeriodExactMatch, alignDate, sameDay]
  case day => simp [isPeriodExactMatch, alignDate, sameDay]
  case week => simp [isPeriodExactMatch, alignDate, sameDay]
  case biWeek => simp [isPeriodExactMatch, alignDate, sameDay]
  case month => simp [isPeriodExactMatch, alignDate, sameDay]
  case fiveYears => simp [isPeriodExactMatch, alignDate, sameDay]

/-- Witness for the amended C9 at a concrete date and scale. -/
theorem c9_align_exact_match_witness :
    isPeriodExactMatch .hours
      (alignDate .hours ⟨2024, 5, 15, 13, 47, 30, 500⟩) ⟨2024, 5, 15, 13, 47, 30, 500⟩ = true :=
  c9_align_exact_match .hours ⟨2024, 5, 15, 13, 47, 30, 500⟩ (by decide)

/-- C10: alignment idempotence — for each of the 8 scale configurations,
re-aligning an already aligned date never moves it. -/
theorem c10_alignDate_idempotent (s : PeriodScale) (d : DateTime) (h : Valid d) :
    alignDate s (alignDate s d) = alignDate s d := by
  cases s
  case hours =>
    obtain ⟨y, mo, da, hh, mi, sec, msec⟩ := d
    simp only [alignDate]
    congr 1
    omega
  case day => rfl
  case week => rfl
  case biWeek => rfl
  case month => rfl
  case fiveYears => rfl
  case quarter =>
    have hz : weekday (alignDate .quarter d) = 0 := by
      show weekday (DateTime.mk (predDay^[weekday d] d).year (predDay^[weekday d] d).month
        (predDay^[weekday d] d).day 0 0 0 0) = 0
      rw [weekday_setTime]
      exact weekday_zero_after_sub d h
    show alignDate .quarter (alignDate .quarter d) = alignDate .quarter d
    conv_lhs => rw [show alignDate .quarter (alignDate .quarter d)
      = { predDay^[weekday (alignDate .quarter d)] (alignDate .quarter d) with
          hour := 0, minute := 0, second := 0, ms := 0 } from rfl]
    rw [hz]
    simp only [Function.iterate_zero, id_eq]
    rfl
  case year =>
    have hz : weekday (alignDate .year d) = 0 := by
      show weekday (DateTime.mk (predDay^[weekday d] d).year (predDay^[weekday d] d).month
        (predDay^[weekday d] d).day 0 0 0 0) = 0
      rw [weekday_setTime]
      exact weekday_zero_after_sub d h
    show alignDate .year (alignDate .year d) = alignDate .year d
    conv_lhs => rw [show alignDate .year (alignDate .year d)
      = { predDay^[weekday (alignDate .year d)] (alignDate .year d) with
          hour := 0, minute := 0, second := 0, ms := 0 } from rfl]
    rw [hz]
    simp only [Function.iterate_zero, id_eq]
    rfl

/-- Witness for C10 at a concrete date and the quarter scale. -/
theorem c10_alignDate_idempotent_witness :
    alignDate .quarter (alignDate .quarter ⟨2024, 5, 15, 13, 47, 30, 500⟩)
      = alignDate .quarter ⟨2024, 5, 15, 13, 47, 30, 500⟩ :=
  c10_alignDate_idempotent .quarter ⟨2024, 5, 15, 13, 47, 30, 500⟩ (by decide)

/-- C5: Initialization — on first mount / scale change the window is rebuilt
as exactly `TOTAL_PERIODS = 200` dates around the scale-aligned center date
(the midpoint of the tasks' overall range, or "now" for an empty task list,
per `centerDateOf`), contiguous, with the aligned center at index 100 (100
periods before it, 99 after); the virtual offset is reset to 0, the visible
range to the centered sub-window `[75, 125]`, and a scroll request of
`centerIndex * periodWidthPx - containerWidth / 2` is issued. -/
theorem c5_init_effect (s : PeriodScale) (tasks : List TaskItem) (now : DateTime)
    (cw : Rat) (hv : Valid (centerDateOf tasks now)) :
    (initEffect s tasks now cw).periods.length = 200 ∧
      (initEffect s tasks now cw).periods[100]?
        = some (alignDate s (centerDateOf tasks now)) ∧
      List.Chain' (fun a b => b = incP s a) (initEffect s tasks now cw).periods ∧
      (initEffect s tasks now cw).virtualOffset = 0 ∧
      (initEffect s tasks now cw).visStart = 75 ∧
      (initEffect s tasks now cw).visEnd = 125 ∧
      (initEffect s tasks now cw).scrollLeft = 100 * (widthRem s * 16) - cw / 2 ∧
      centerDateOf [] now = now := by
  have hsv := alignDate_scaleValid s (centerDateOf tasks now) hv
  have hp : (initEffect s tasks now cw).periods
      = genAround s (alignDate s (centerDateOf tasks now)) := rfl
  have hlen : (initEffect s tasks now cw).periods.length = 200 := by
    rw [hp, genAround_length]
  have hci : ((initEffect s tasks now cw).periods.length : Int) / 2 = 100 := by
    rw [hlen]
    rfl
  have hwl : (initWindow s (centerDateOf tasks now)).length = 200 :=
    genAround_length s _
  refine ⟨hlen, ?_, ?_, rfl, ?_, ?_, ?_, rfl⟩
  · rw [hp, genAround_getElem? s _ 100 (by omega), if_neg (by omega)]
    rfl
  · rw [hp]
    exact genAround_chain s _ hsv
  · have hv1 : (initEffect s tasks now cw).visStart
        = max 0 (((initWindow s (centerDateOf tasks now)).length : Int) / 2 - 25) := rfl
    rw [hv1, hwl]
    decide
  · have hv2 : (initEffect s tasks now cw).visEnd
        = ((initWindow s (centerDateOf tasks now)).length : Int) / 2 + 25 := rfl
    rw [hv2, hwl]
    decide
  · have hv3 : (initEffect s tasks now cw).scrollLeft
        = ((((initWindow s (centerDateOf tasks now)).length : Int) / 2 : Int) : Rat)
            * (widthRem s * 16) - cw / 2 := rfl
    rw [hv3, hwl]
    norm_num

/-- Witness for C5 at a concrete task list. -/
theorem c5_init_effect_witness :
    (initEffect .day [⟨⟨2024, 5, 10, 0, 0, 0, 0⟩, ⟨2024, 5, 20, 0, 0, 0, 0⟩⟩]
        ⟨2024, 0, 1, 0, 0, 0, 0⟩ 800).periods.length = 200 ∧
      (initEffect .day [⟨⟨2024, 5, 10, 0, 0, 0, 0⟩, ⟨2024, 5, 20, 0, 0, 0, 0⟩⟩]
          ⟨2024, 0, 1, 0, 0, 0, 0⟩ 800).periods[100]?
        = some (alignDate .day (centerDateOf
            [⟨⟨2024, 5, 10, 0, 0, 0, 0⟩, ⟨2024, 5, 20, 0, 0, 0, 0⟩⟩] ⟨2024, 0, 1, 0, 0, 0, 0⟩)) ∧
      List.Chain' (fun a b => b = incP .day a)
        (initEffect .day [⟨⟨2024, 5, 10, 0, 0, 0, 0⟩, ⟨2024, 5, 20, 0, 0, 0, 0⟩⟩]
          ⟨2024, 0, 1, 0, 0, 0, 0⟩ 800).periods ∧
      (initEffect .day [⟨⟨2024, 5, 10, 0, 0, 0, 0⟩, ⟨2024, 5, 20, 0, 0, 0, 0⟩⟩]
          ⟨2024, 0, 1, 0, 0, 0, 0⟩ 800).virtualOffset = 0 ∧
      (initEffect .day [⟨⟨2024, 5, 10, 0, 0, 0, 0⟩, ⟨2024, 5, 20, 0, 0, 0, 0⟩⟩]
          ⟨2024, 0, 1, 0, 0, 0, 0⟩ 800).visStart = 75 ∧
      (initEffect .day [⟨⟨2024, 5, 10, 0, 0, 0, 0⟩, ⟨2024, 5, 20, 0, 0, 0, 0⟩⟩]
          ⟨2024, 0, 1, 0, 0, 0, 0⟩ 800).visEnd = 125 ∧
      (initEffect .day [⟨⟨2024, 5, 10, 0, 0, 0, 0⟩, ⟨2024, 5, 20, 0, 0, 0, 0⟩⟩]
          ⟨2024, 0, 1, 0, 0, 0, 0⟩ 800).scrollLeft = 100 * (widthRem .day * 16) - 800 / 2 ∧
      centerDateOf [] ⟨2024, 0, 1, 0, 0, 0, 0⟩ = ⟨2024, 0, 1, 0, 0, 0, 0⟩ :=
  c5_init_effect .day _ _ 800 (by decide)

/-- C6 counterexample: `scrollToTask` rebuilds the window even when the task's
start date is present in the current window at index 110 — far from both
edges — contradicting the claim that a found, non-edge target is scrolled to
without rebuilding.  (The rebuilt window differs from the current one already
at its head.) -/
theorem c6_counterexample :
    findPeriodIndex .day (initWindow .day ⟨2024, 5, 15, 12, 0, 0, 0⟩)
        ⟨2024, 5, 15, 22, 0, 0, 0⟩ = some 110 ∧
      ¬ ((110 : Nat) < 50 ∨ (150 : Nat) < 110) ∧
      (scrollToTask .day ⟨2024, 5, 15, 22, 0, 0, 0⟩ 800 0).periods
        ≠ initWindow .day ⟨2024, 5, 15, 12, 0, 0, 0⟩ := by
  refine ⟨by decide, by decide, ?_⟩
  intro hcon
  have h1 : (scrollToTask .day ⟨2024, 5, 15, 22, 0, 0, 0⟩ 800 0).periods.headI
      = ⟨2024, 5, 11, 18, 0, 0, 0⟩ := by decide
  have h2 : (initWindow .day ⟨2024, 5, 15, 12, 0, 0, 0⟩).headI
      = ⟨2024, 5, 11, 8, 0, 0, 0⟩ := by decide
  rw [hcon, h2] at h1
  exact absurd h1 (by decide)

/-- C6 (amended): the jump-action policy holds for `scrollToToday` — when the
target is found and no regeneration is needed, the window and visible range
are untouched and the scroll write centers the target's proportional
position; and it regenerates only when the target is missing or near an
edge.  `scrollToTask`, however, always regenerates the window around the
task's aligned start date, regardless of the current window. -/
theorem c6_jump_policy (s : PeriodScale) (w : List DateTime) (now : DateTime)
    (cw : Rat) (vs ve : Int) (ti : Nat)
    (hfound : findPeriodIndex s w now = some ti)
    (hnear : ¬ (ti < 50 ∨ 150 < ti)) :
    ((scrollToToday s w now cw vs ve).regenerated = false ∧
      (scrollToToday s w now cw vs ve).periods = w ∧
      (scrollToToday s w now cw vs ve).visStart = vs ∧
      (scrollToToday s w now cw vs ve).visEnd = ve ∧
      (scrollToToday s w now cw vs ve).scrollLeft =
        max 0 ((if ti + 1 < w.length then posAt w ti (toMs now) (widthRem s * 16)
                else (ti : Rat) * (widthRem s * 16)) - cw / 2)) ∧
    (∀ (w' : List DateTime) (now' : DateTime) (cw' : Rat) (vs' ve' : Int),
      (scrollToToday s w' now' cw' vs' ve').regenerated = true →
        findPeriodIndex s w' now' = none ∨
          ∃ j, findPeriodIndex s w' now' = some j ∧ (j < 50 ∨ 150 < j)) ∧
    (∀ (t : DateTime) (cw' oldScroll : Rat),
      (scrollToTask s t cw' oldScroll).periods = genAround s (alignDate s t)) := by
  have hregen : todayNeedsRegen s w now ti = false := by
    unfold todayNeedsRegen
    rw [if_neg hnear]
  refine ⟨?_, ?_, fun _ _ _ => rfl⟩
  · unfold scrollToToday
    rw [hfound]
    simp only [hregen, Bool.false_eq_true, if_false]
    exact ⟨trivial, trivial, trivial, trivial, trivial⟩
  · intro w' now' cw' vs' ve' hreg
    unfold scrollToToday at hreg
    cases hfp : findPeriodIndex s w' now' with
    | none => exact Or.inl rfl
    | some j =>
      rw [hfp] at hreg
      simp only at hreg
      by_cases hnr : todayNeedsRegen s w' now' j = true
      · refine Or.inr ⟨j, rfl, ?_⟩
        unfold todayNeedsRegen at hnr
        by_cases hj : j < 50 ∨ 150 < j
        · exact hj
        · rw [if_neg hj] at hnr
          exact absurd hnr (by simp)
      · rw [if_neg (by simpa using hnr)] at hreg
        exact absurd hreg (by simp)

/-- Witness for the amended C6 at a concrete day-scale window. -/
theorem c6_jump_policy_witness :
    ((scrollToToday .day (initWindow .day ⟨2024, 5, 15, 12, 0, 0, 0⟩)
          ⟨2024, 5, 15, 22, 0, 0, 0⟩ 800 30 50).regenerated = false ∧
      (scrollToToday .day (initWindow .day ⟨2024, 5, 15, 12, 0, 0, 0⟩)
          ⟨2024, 5, 15, 22, 0, 0, 0⟩ 800 30 50).periods
        = initWindow .day ⟨2024, 5, 15, 12, 0, 0, 0⟩ ∧
      (scrollToToday .day (initWindow .day ⟨2024, 5, 15, 12, 0, 0, 0⟩)
          ⟨2024, 5, 15, 22, 0, 0, 0⟩ 800 30 50).visStart = 30 ∧
      (scrollToToday .day (initWindow .day ⟨2024, 5, 15, 12, 0, 0, 0⟩)
          ⟨2024, 5, 15, 22, 0, 0, 0⟩ 800 30 50).visEnd = 50 ∧
      (scrollToToday .day (initWindow .day ⟨2024, 5, 15, 12, 0, 0, 0⟩)
          ⟨2024, 5, 15, 22, 0, 0, 0⟩ 800 30 50).scrollLeft =
        max 0 ((if 110 + 1 < (initWindow .day ⟨2024, 5, 15, 12, 0, 0, 0⟩).length then
                  posAt (initWindow .day ⟨2024, 5, 15, 12, 0, 0, 0⟩) 110
                    (toMs ⟨2024, 5, 15, 22, 0, 0, 0⟩) (widthRem .day * 16)
                else (110 : Rat) * (widthRem .day * 16)) - 800 / 2)) ∧
    (∀ (w' : List DateTime) (now' : DateTime) (cw' : Rat) (vs' ve' : Int),
      (scrollToToday .day w' now' cw' vs' ve').regenerated = true →
        findPeriodIndex .day w' now' = none ∨
          ∃ j, findPeriodIndex .day w' now' = some j ∧ (j < 50 ∨ 150 < j)) ∧
    (∀ (t : DateTime) (cw' oldScroll : Rat),
      (scrollToTask .day t cw' oldScroll).periods = genAround .day (alignDate .day t)) :=
  c6_jump_policy .day (initWindow .day ⟨2024, 5, 15, 12, 0, 0, 0⟩)
    ⟨2024, 5, 15, 22, 0, 0, 0⟩ 800 30 50 110 (by decide) (by decide)

/-- C7 counterexample: a day-scale window all of whose periods lie strictly in
the past (its last period is midnight of the current day, "now" is noon)
yields a clamped in-range today-marker offset `(length - 1) * width = 6` rem,
not an absent marker. -/
theorem c7_counterexample :
    (toMs ⟨2024, 5, 14, 22, 0, 0, 0⟩ < toMs ⟨2024, 5, 15, 12, 0, 0, 0⟩ ∧
      toMs ⟨2024, 5, 14, 23, 0, 0, 0⟩ < toMs ⟨2024, 5, 15, 12, 0, 0, 0⟩ ∧
      toMs ⟨2024, 5, 15, 0, 0, 0, 0⟩ < toMs ⟨2024, 5, 15, 12, 0, 0, 0⟩) ∧
    getTodayPosition .day
      [⟨2024, 5, 14, 22, 0, 0, 0⟩, ⟨2024, 5, 14, 23, 0, 0, 0⟩, ⟨2024, 5, 15, 0, 0, 0, 0⟩]
      ⟨2024, 5, 15, 12, 0, 0, 0⟩ = some 6 := by
  refine ⟨by decide, ?_⟩
  with_unfolding_all decide

/-- C7 (amended): the today marker is reported absent for every window that
lies strictly in the past AND shares no aligned exact match or same-bucket
period with "now"; when a past window still contains a period in today's
bucket (e.g. midnight of the current day), the code instead reports the
clamped end-of-window offset (see the counterexample). -/
theorem c7_today_marker_absent (s : PeriodScale) (w : List DateTime) (now : DateTime)
    (hpast : ∀ p ∈ w, toMs p < toMs now)
    (hnoexact : ∀ p ∈ w, isPeriodExactMatch s p (alignDate s now) = false)
    (hnobucket : ∀ p ∈ w, isPeriodOnSameDay s p now = false) :
    getTodayPosition s w now = none := by
  unfold getTodayPosition
  cases w with
  | nil => rfl
  | cons a t =>
    rw [if_neg (by simp)]
    rw [bracketScan_none_of_all_lt (toMs now) (a :: t) hpast]
    have hfp : findPeriodIndex s (a :: t) now = none := by
      unfold findPeriodIndex
      rw [List.findIdx?_eq_none_iff.mpr hnoexact]
      rw [List.filter_eq_nil_iff.mpr (by
        intro p hp
        rw [hnobucket p hp]
        simp)]
    rw [hfp]

/-- Witness for the amended C7: a strictly-past window sharing no bucket with
now. -/
theorem c7_today_marker_absent_witness :
    getTodayPosition .day
      [⟨2024, 5, 13, 22, 0, 0, 0⟩, ⟨2024, 5, 13, 23, 0, 0, 0⟩, ⟨2024, 5, 14, 0, 0, 0, 0⟩]
      ⟨2024, 5, 15, 12, 0, 0, 0⟩ = none :=
  c7_today_marker_absent .day _ ⟨2024, 5, 15, 12, 0, 0, 0⟩
    (by decide) (by decide) (by decide)

-- ### Task positioner bounds (C4)

theorem bracketScan_exists (t : Int) :
    ∀ (w : List DateTime), List.Chain' (fun a b => toMs a < toMs b) w →
      w ≠ [] → toMs w.headI ≤ t → t < toMs (w.getLastD default) →
      ∃ i, bracketScan t w = some i ∧ i + 1 < w.length ∧
        toMs (w.getD i default) ≤ t ∧ t < toMs (w.getD (i + 1) default) := by
  intro w
  induction w with
  | nil => intro _ hne; exact absurd rfl hne
  | cons p rest ih =>
    intro hch _ hhead hlast
    cases rest with
    | nil =>
      exfalso
      simp [List.headI] at hhead
      simp [List.getLastD] at hlast
      omega
    | cons q rest' =>
      by_cases hpq : toMs p ≤ t ∧ t < toMs q
      · refine ⟨0, ?_, by simp, ?_, ?_⟩
        · unfold bracketScan
          rw [if_pos hpq]
        · exact hpq.1
        · exact hpq.2
      · have hq : toMs q ≤ t := by
          rcases Decidable.em (t < toMs q) with h | h
          · exact absurd ⟨hhead, h⟩ hpq
          · omega
        obtain ⟨i, hbs, hlen, hb, ha⟩ :=
          ih hch.tail (by simp) hq (by
            have h2 : (p :: q :: rest').getLastD default = (q :: rest').getLastD default := by
              simp [List.getLastD_cons]
            rw [h2] at hlast
            exact hlast)
        refine ⟨i + 1, ?_, by simpa using hlen, by simpa using hb, by simpa using ha⟩
        unfold bracketScan
        rw [if_neg hpq, hbs]
        rfl

theorem chain'_toMs_le (w : List DateTime)
    (hch : List.Chain' (fun a b => toMs a < toMs b) w)
    (i j : Nat) (hij : i ≤ j) (hj : j < w.length) :
    toMs (w.getD i default) ≤ toMs (w.getD j default) := by
  have hstep : ∀ k, k + 1 < w.length →
      toMs (w.getD k default) < toMs (w.getD (k + 1) default) := by
    intro k hk
    have h1 : w.getD k default = w.get ⟨k, by omega⟩ := by
      rw [List.getD_eq_getElem?_getD, List.getElem?_eq_getElem (by omega)]
      rfl
    have h2 : w.getD (k + 1) default = w.get ⟨k + 1, hk⟩ := by
      rw [List.getD_eq_getElem?_getD, List.getElem?_eq_getElem hk]
      rfl
    rw [h1, h2]
    exact List.chain'_iff_get.mp hch k (by omega)
  induction j with
  | zero =>
    have : i = 0 := by omega
    rw [this]
  | succ n ihn =>
    rcases Nat.lt_or_ge i (n + 1) with h | h
    · have hi : i ≤ n := by omega
      have := ihn hi (by omega)
      have h2 := hstep n hj
      omega
    · have : i = n + 1 := by omega
      rw [this]

theorem getTaskStyle_hidden (s : PeriodScale) (p0 : DateTime) (rest : List DateTime)
    (a b : DateTime)
    (h : toMs b < toMs p0 ∨ toMs ((p0 :: rest).getLastD p0) < toMs a) :
    getTaskStyle s (p0 :: rest) a b = none := by
  unfold getTaskStyle
  exact if_pos h

theorem getTaskStyle_visible (s : PeriodScale) (p0 : DateTime) (rest : List DateTime)
    (a b : DateTime)
    (h : ¬ (toMs b < toMs p0 ∨ toMs ((p0 :: rest).getLastD p0) < toMs a)) :
    getTaskStyle s (p0 :: rest) a b =
      some ⟨taskStylePos s (p0 :: rest) (toMs a),
        taskStylePos s (p0 :: rest) (toMs b) - taskStylePos s (p0 :: rest) (toMs a)⟩ := by
  show (if toMs b < toMs p0 ∨ toMs ((p0 :: rest).getLastD p0) < toMs a
        then (none : Option TaskStyle)
        else some (TaskStyle.mk (taskStylePos s (p0 :: rest) (toMs a))
          (taskStylePos s (p0 :: rest) (toMs b) - taskStylePos s (p0 :: rest) (toMs a)))) =
      some (TaskStyle.mk (taskStylePos s (p0 :: rest) (toMs a))
        (taskStylePos s (p0 :: rest) (toMs b) - taskStylePos s (p0 :: rest) (toMs a)))
  rw [if_neg h]

theorem taskStylePos_bracket (s : PeriodScale) (w : List DateTime) (t : Int) (i : Nat)
    (hbs : bracketScan t w = some i)
    (hb : toMs (w.getD i default) ≤ t)
    (ha : t < toMs (w.getD (i + 1) default)) :
    ((i : Rat)) * widthRem s ≤ taskStylePos s w t ∧
      taskStylePos s w t < ((i : Rat) + 1) * widthRem s := by
  have hbc : bracketOrClosest w t = (i, i + 1) := by
    unfold bracketOrClosest
    rw [hbs]
  unfold taskStylePos
  rw [hbc]
  simp only
  have hden : (0 : Rat) < ((toMs (w.getD (i + 1) default) - toMs (w.getD i default) : Int) : Rat) := by
    exact_mod_cast (by omega : (0 : Int) < toMs (w.getD (i + 1) default) - toMs (w.getD i default))
  have hnum0 : (0 : Rat) ≤ ((t - toMs (w.getD i default) : Int) : Rat) := by
    exact_mod_cast (by omega : (0 : Int) ≤ t - toMs (w.getD i default))
  have hnumlt : ((t - toMs (w.getD i default) : Int) : Rat) <
      ((toMs (w.getD (i + 1) default) - toMs (w.getD i default) : Int) : Rat) := by
    exact_mod_cast (by omega : t - toMs (w.getD i default) <
      toMs (w.getD (i + 1) default) - toMs (w.getD i default))
  have hprop0 : (0 : Rat) ≤ ((t - toMs (w.getD i default) : Int) : Rat) /
      ((toMs (w.getD (i + 1) default) - toMs (w.getD i default) : Int) : Rat) :=
    div_nonneg hnum0 (le_of_lt hden)
  have hprop1 : ((t - toMs (w.getD i default) : Int) : Rat) /
      ((toMs (w.getD (i + 1) default) - toMs (w.getD i default) : Int) : Rat) < 1 :=
    (div_lt_one hden).mpr hnumlt
  have hW := widthRem_pos s
  constructor
  · nlinarith
  · nlinarith

theorem taskStylePos_mono (s : PeriodScale) (w : List DateTime) (t t' : Int)
    (hch : List.Chain' (fun a b => toMs a < toMs b) w)
    (hne : w ≠ []) (htt : t ≤ t')
    (h0 : toMs w.headI ≤ t) (hl : t' < toMs (w.getLastD default)) :
    taskStylePos s w t ≤ taskStylePos s w t' := by
  obtain ⟨i, hbsS, hi1, hbS, haS⟩ :=
    bracketScan_exists t w hch hne h0 (by omega)
  obtain ⟨j, hbsE, hj1, hbE, haE⟩ :=
    bracketScan_exists t' w hch hne (by omega) hl
  have hij : i ≤ j := by
    by_contra hc
    have hj1i : j + 1 ≤ i := by omega
    have := chain'_toMs_le w hch (j + 1) i hj1i (by omega)
    omega
  rcases Nat.eq_or_lt_of_le hij with heq | hlt
  · subst heq
    have hbc : bracketOrClosest w t = (i, i + 1) := by
      unfold bracketOrClosest
      rw [hbsS]
    have hbc' : bracketOrClosest w t' = (i, i + 1) := by
      unfold bracketOrClosest
      rw [hbsE]
    unfold taskStylePos
    rw [hbc, hbc']
    simp only
    have hden : (0 : Rat) <
        ((toMs (w.getD (i + 1) default) - toMs (w.getD i default) : Int) : Rat) := by
      exact_mod_cast (by omega : (0 : Int) <
        toMs (w.getD (i + 1) default) - toMs (w.getD i default))
    have hnum : ((t - toMs (w.getD i default) : Int) : Rat) ≤
        ((t' - toMs (w.getD i default) : Int) : Rat) := by
      exact_mod_cast (by omega : t - toMs (w.getD i default) ≤ t' - toMs (w.getD i default))
    have hprop : ((t - toMs (w.getD i default) : Int) : Rat) /
          ((toMs (w.getD (i + 1) default) - toMs (w.getD i default) : Int) : Rat) ≤
        ((t' - toMs (w.getD i default) : Int) : Rat) /
          ((toMs (w.getD (i + 1) default) - toMs (w.getD i default) : Int) : Rat) := by
      have := div_nonneg (by linarith : (0 : Rat) ≤
          ((t' - toMs (w.getD i default) : Int) : Rat) -
            ((t - toMs (w.getD i default) : Int) : Rat)) (le_of_lt hden)
      rw [sub_div] at this
      linarith
    have hW := widthRem_pos s
    nlinarith
  · have h1 := (taskStylePos_bracket s w t i hbsS hbS haS).2
    have h2 := (taskStylePos_bracket s w t' j hbsE hbE haE).1
    have hcast : ((i : Rat) + 1) ≤ (j : Rat) := by
      exact_mod_cast (by omega : i + 1 ≤ j)
    have hW := widthRem_pos s
    nlinarith

/-- C4 (amended): `getTaskStyle` hides the task exactly when the window is
empty or the interval misses `[window[0], window[last]]`; for a well-ordered
task lying inside a strictly increasing window it returns the independent
proportional placement of both ends, whose extents do lie within
`[0, length * periodWidth]` — but no clamping is applied by the code (see the
counterexample: an inverted task yields a negative width). -/
theorem c4_task_positioner (s : PeriodScale) (w : List DateTime) (tstart tend : DateTime)
    (hch : List.Chain' (fun a b => toMs a < toMs b) w)
    (hne : w ≠ [])
    (h0 : toMs w.headI ≤ toMs tstart)
    (hse : toMs tstart ≤ toMs tend)
    (hlast : toMs tend < toMs (w.getLastD default)) :
    (∀ (w' : List DateTime) (a b : DateTime),
        (w' = [] ∨ toMs b < toMs w'.headI ∨ toMs (w'.getLastD default) < toMs a) →
        getTaskStyle s w' a b = none) ∧
    ∃ st, getTaskStyle s w tstart tend = some st ∧
      st.left = taskStylePos s w (toMs tstart) ∧
      st.width = taskStylePos s w (toMs tend) - taskStylePos s w (toMs tstart) ∧
      0 ≤ st.left ∧ 0 ≤ st.width ∧
      st.left + st.width ≤ (w.length : Rat) * widthRem s := by
  constructor
  · intro w' a b h
    cases w' with
    | nil => rfl
    | cons p0 rest =>
      rcases h with h | h | h
      · exact absurd h (by simp)
      · exact getTaskStyle_hidden s p0 rest a b (Or.inl h)
      · refine getTaskStyle_hidden s p0 rest a b (Or.inr ?_)
        rw [getLastD_congr (p0 :: rest) (by simp) p0 default]
        exact h
  · obtain ⟨i, hbsS, hi1, hbS, haS⟩ :=
      bracketScan_exists (toMs tstart) w hch hne h0 (by omega)
    obtain ⟨j, hbsE, hj1, hbE, haE⟩ :=
      bracketScan_exists (toMs tend) w hch hne (by omega) hlast
    obtain ⟨p0, rest, rfl⟩ : ∃ p0 rest, w = p0 :: rest := by
      cases w with
      | nil => exact absurd rfl hne
      | cons p0 rest => exact ⟨p0, rest, rfl⟩
    have hvis : ¬ (toMs tend < toMs p0 ∨
        toMs ((p0 :: rest).getLastD p0) < toMs tstart) := by
      rw [getLastD_congr (p0 :: rest) (by simp) p0 default]
      have hh : toMs (p0 :: rest).headI = toMs p0 := rfl
      rw [hh] at h0
      have h1 := chain'_toMs_le (p0 :: rest) hch 0 j (by omega) (by omega)
      have h2 : toMs ((p0 :: rest).getD 0 default) = toMs p0 := rfl
      omega
    refine ⟨_, getTaskStyle_visible s p0 rest tstart tend hvis, rfl, rfl, ?_, ?_, ?_⟩
    · have h1 := (taskStylePos_bracket s (p0 :: rest) (toMs tstart) i hbsS hbS haS).1
      have hW := widthRem_pos s
      have hi0 : (0 : Rat) ≤ (i : Rat) := Nat.cast_nonneg i
      simp only
      nlinarith
    · simp only
      have := taskStylePos_mono s (p0 :: rest) (toMs tstart) (toMs tend) hch hne hse h0 hlast
      linarith
    · simp only
      have h2 := (taskStylePos_bracket s (p0 :: rest) (toMs tend) j hbsE hbE haE).2
      have hc : ((j : Rat) + 1) ≤ ((p0 :: rest).length : Rat) := by
        exact_mod_cast (by omega : j + 1 ≤ (p0 :: rest).length)
      have hW := widthRem_pos s
      nlinarith

/-- C4 counterexample. -/
theorem c4_counterexample :
    (toMs (⟨2024, 5, 14, 0, 0, 0, 0⟩ : DateTime) ≤ toMs (⟨2024, 5, 14, 12, 0, 0, 0⟩ : DateTime) ∧
      toMs (⟨2024, 5, 15, 12, 0, 0, 0⟩ : DateTime) ≤ toMs (⟨2024, 5, 16, 0, 0, 0, 0⟩ : DateTime)) ∧
    getTaskStyle .week
        [⟨2024, 5, 14, 0, 0, 0, 0⟩, ⟨2024, 5, 15, 0, 0, 0, 0⟩, ⟨2024, 5, 16, 0, 0, 0, 0⟩]
        ⟨2024, 5, 15, 12, 0, 0, 0⟩ ⟨2024, 5, 14, 12, 0, 0, 0⟩ = some ⟨21 / 2, -7⟩ ∧
    (-7 : Rat) < 0 := by
  refine ⟨by decide, ?_, by norm_num⟩
  with_unfolding_all decide

/-- Witness for the amended C4. -/
theorem c4_task_positioner_witness :
    (∀ (w' : List DateTime) (a b : DateTime),
        (w' = [] ∨ toMs b < toMs w'.headI ∨ toMs (w'.getLastD default) < toMs a) →
        getTaskStyle .day w' a b = none) ∧
    ∃ st, getTaskStyle .day
        [⟨2024, 5, 14, 0, 0, 0, 0⟩, ⟨2024, 5, 14, 1, 0, 0, 0⟩, ⟨2024, 5, 14, 2, 0, 0, 0⟩]
        ⟨2024, 5, 14, 0, 30, 0, 0⟩ ⟨2024, 5, 14, 1, 30, 0, 0⟩ = some st ∧
      st.left = taskStylePos .day
        [⟨2024, 5, 14, 0, 0, 0, 0⟩, ⟨2024, 5, 14, 1, 0, 0, 0⟩, ⟨2024, 5, 14, 2, 0, 0, 0⟩]
        (toMs ⟨2024, 5, 14, 0, 30, 0, 0⟩) ∧
      st.width = taskStylePos .day
        [⟨2024, 5, 14, 0, 0, 0, 0⟩, ⟨2024, 5, 14, 1, 0, 0, 0⟩, ⟨2024, 5, 14, 2, 0, 0, 0⟩]
          (toMs ⟨2024, 5, 14, 1, 30, 0, 0⟩) -
        taskStylePos .day
          [⟨2024, 5, 14, 0, 0, 0, 0⟩, ⟨2024, 5, 14, 1, 0, 0, 0⟩, ⟨2024, 5, 14, 2, 0, 0, 0⟩]
          (toMs ⟨2024, 5, 14, 0, 30, 0, 0⟩) ∧
      0 ≤ st.left ∧ 0 ≤ st.width ∧
      st.left + st.width ≤
        (([⟨2024, 5, 14, 0, 0, 0, 0⟩, ⟨2024, 5, 14, 1, 0, 0, 0⟩,
            ⟨2024, 5, 14, 2, 0, 0, 0⟩] : List DateTime).length : Rat) * widthRem .day :=
  c4_task_positioner .day
    [⟨2024, 5, 14, 0, 0, 0, 0⟩, ⟨2024, 5, 14, 1, 0, 0, 0⟩, ⟨2024, 5, 14, 2, 0, 0, 0⟩]
    ⟨2024, 5, 14, 0, 30, 0, 0⟩ ⟨2024, 5, 14, 1, 30, 0, 0⟩
    (by simp [List.chain'_cons]; decide) (by simp) (by decide) (by decide) (by decide)
